import Mathlib

/-!
Verification development for the mcp-chat pairing-and-relay server
(`src/mcp_chat/models.py`, `src/mcp_chat/managers.py`, `src/mcp_chat/server.py`).

The Python server keeps all its state in module-level dictionaries and
manager objects.  We embed it as a pure state machine:

* Python dicts become association lists over `Nat` keys (`alookup`,
  `aupd`, `aerase`); `aupd` updates an existing key in place or appends,
  and `aerase` removes a key, matching `dict` assignment and `del` /
  `pop(k, None)` on dictionaries (whose keys are unique).
* `uuid.uuid4()` tokens (user ids, connection ids, generated room ids,
  message ids) are drawn from a single monotone counter `fresh`; the
  assumption that freshly drawn uuids never collide with any token
  already in the system becomes the arithmetic fact that the counter
  exceeds every token in use.  When `join_room` introduces a
  caller-chosen room id, the counter is bumped past it so later
  generated ids stay fresh, mirroring uuid collision-freedom.
* Python stores one mutable `ChatRoom` object possibly under several
  keys of `RoomManager._rooms` (the direct-join path registers the same
  object under its generated id and under the caller-supplied id), so
  rooms live in a heap `store : List (Nat × ChatRoom)` addressed by
  references, and `roomKeys` maps room ids to references.
* `asyncio.Queue(maxsize=100)` channels become `List MsgData` with a
  capacity-checked push (`qput`); `put_nowait` on a full queue raises
  `QueueFull`, which the server swallows, i.e. the message is dropped.
* `send_notification` only logs, so it has no state effect and is
  omitted.  Timestamps are not modelled; no claim depends on them.
-/

namespace McpChat

/-- Lookup in an association list (first matching key, like a dict). -/
def alookup {α : Type} (k : Nat) : List (Nat × α) → Option α
  | [] => none
  | p :: rest => if p.1 = k then some p.2 else alookup k rest

/-- Dict assignment `d[k] = v`: update the existing entry in place, or append. -/
def aupd {α : Type} (k : Nat) (v : α) : List (Nat × α) → List (Nat × α)
  | [] => [(k, v)]
  | p :: rest => if p.1 = k then (k, v) :: rest else p :: aupd k v rest

/-- Dict deletion `del d[k]` / `d.pop(k, None)`: remove the entry for `k`. -/
def aerase {α : Type} (k : Nat) : List (Nat × α) → List (Nat × α)
  | [] => []
  | p :: rest => if p.1 = k then aerase k rest else p :: aerase k rest

theorem alookup_aupd_self {α : Type} (k : Nat) (v : α) (l : List (Nat × α)) :
    alookup k (aupd k v l) = some v := by
  induction l with
  | nil => simp [aupd, alookup]
  | cons p rest ih =>
    by_cases h : p.1 = k <;> simp [aupd, alookup, h, ih]

theorem alookup_aupd_ne {α : Type} {k k' : Nat} (v : α) (l : List (Nat × α))
    (h : k' ≠ k) : alookup k' (aupd k v l) = alookup k' l := by
  induction l with
  | nil => simp [aupd, alookup, Ne.symm h]
  | cons p rest ih =>
    by_cases hp : p.1 = k
    · subst hp
      simp [aupd, alookup, Ne.symm h]
    · by_cases hq : p.1 = k' <;> simp [aupd, alookup, hp, hq, ih, h]

theorem alookup_aerase {α : Type} (k k' : Nat) (l : List (Nat × α)) :
    alookup k' (aerase k l) = if k' = k then none else alookup k' l := by
  induction l with
  | nil => simp [aerase, alookup]
  | cons p rest ih =>
    by_cases hp : p.1 = k
    · subst hp
      by_cases hq : k' = p.1
      · subst hq
        simp [aerase, alookup, ih]
      · simp [aerase, alookup, hq, ih, Ne.symm hq]
    · by_cases hq : k' = k
      · subst hq
        simp [aerase, alookup, hp, ih, Ne.symm hp]
      · by_cases hr : p.1 = k' <;> simp [aerase, alookup, hp, hq, hr, ih]

theorem mem_aupd {α : Type} {k : Nat} {v : α} {l : List (Nat × α)} {p : Nat × α}
    (h : p ∈ aupd k v l) : p = (k, v) ∨ p ∈ l := by
  induction l with
  | nil => simpa [aupd] using h
  | cons q rest ih =>
    by_cases hq : q.1 = k
    · rcases (by simpa [aupd, hq] using h) with h' | h'
      · exact Or.inl h'
      · exact Or.inr (List.mem_cons_of_mem _ h')
    · rcases (by simpa [aupd, hq] using h) with h' | h'
      · exact Or.inr (by simp [h'])
      · rcases ih h' with h'' | h''
        · exact Or.inl h''
        · exact Or.inr (List.mem_cons_of_mem _ h'')

theorem mem_aerase {α : Type} {k : Nat} {l : List (Nat × α)} {p : Nat × α}
    (h : p ∈ aerase k l) : p ∈ l := by
  induction l with
  | nil => simpa [aerase] using h
  | cons q rest ih =>
    by_cases hq : q.1 = k
    · exact List.mem_cons_of_mem _ (ih (by simpa [aerase, hq] using h))
    · rcases (by simpa [aerase, hq] using h) with h' | h'
      · exact by simp [h']
      · exact List.mem_cons_of_mem _ (ih h')

theorem alookup_eq_none {α : Type} {k : Nat} {l : List (Nat × α)}
    (h : ∀ p ∈ l, p.1 ≠ k) : alookup k l = none := by
  induction l with
  | nil => rfl
  | cons p rest ih =>
    simp only [alookup, if_neg (h p (by simp))]
    exact ih fun q hq => h q (List.mem_cons_of_mem _ hq)

theorem alookup_mem {α : Type} {k : Nat} {v : α} {l : List (Nat × α)}
    (h : alookup k l = some v) : (k, v) ∈ l := by
  induction l with
  | nil => simp [alookup] at h
  | cons p rest ih =>
    by_cases hp : p.1 = k
    · have : p.2 = v := by simpa [alookup, hp] using h
      subst hp
      simp [← this]
    · exact List.mem_cons_of_mem _ (ih (by simpa [alookup, hp] using h))

theorem aupd_aupd_same {α : Type} (k : Nat) (v v' : α) (l : List (Nat × α)) :
    aupd k v' (aupd k v l) = aupd k v' l := by
  induction l with
  | nil => simp [aupd]
  | cons p rest ih =>
    by_cases hp : p.1 = k <;> simp [aupd, hp, ih]

theorem aerase_aerase_same {α : Type} (k : Nat) (l : List (Nat × α)) :
    aerase k (aerase k l) = aerase k l := by
  induction l with
  | nil => rfl
  | cons p rest ih =>
    by_cases hp : p.1 = k <;> simp [aerase, hp, ih]

/-! ## Data model (`models.py`) -/

/-- `models.User`: `user_id` and `connection_id` are uuid tokens
(modelled as counter values), `display_name` is optional. -/
structure User where
  user_id : Nat
  display_name : Option String
  connection_id : Nat
deriving DecidableEq

/-- `User.name`: display name, or an anonymous label derived from the id.
Python's `or` treats the empty string as falsy. -/
def User.name (u : User) : String :=
  match u.display_name with
  | some s => if s = "" then "Anonymous-" ++ toString u.user_id else s
  | none => "Anonymous-" ++ toString u.user_id

/-- `models.ChatRoom`: two user slots and an active flag. -/
structure ChatRoom where
  room_id : Nat
  user1 : User
  user2 : User
  active : Bool
deriving DecidableEq

/-- `ChatRoom.get_partner`. -/
def ChatRoom.get_partner (r : ChatRoom) (uid : Nat) : Option User :=
  if r.user1.user_id = uid then some r.user2
  else if r.user2.user_id = uid then some r.user1
  else none

/-- `ChatRoom.has_user`. -/
def ChatRoom.has_user (r : ChatRoom) (uid : Nat) : Bool :=
  uid == r.user1.user_id || uid == r.user2.user_id

/-- A message dict as placed into a long-poll queue by `send_message`,
`join_room` or `leave_chat` (`sender_id = none` encodes `"system"`). -/
structure MsgData where
  content : String
  sender_name : String
  sender_id : Option Nat
  message_id : Nat
  system : Bool
  disconnect : Bool
deriving DecidableEq

/-- `put_nowait` on an `asyncio.Queue(maxsize=100)`: the message is
appended when there is room and silently dropped when the queue is full
(the server catches `QueueFull`). -/
def qput (ch : List MsgData) (m : MsgData) : List MsgData :=
  if ch.length < 100 then ch ++ [m] else ch

/-! ## Server state

`connections`, `message_queues` (server.py module globals), the
`QueueManager` deque and the `RoomManager` maps, plus the uuid counter. -/

structure ServerState where
  fresh : Nat
  connections : List (Nat × User)
  queue : List User
  store : List (Nat × ChatRoom)
  roomKeys : List (Nat × Nat)
  userToRoom : List (Nat × Nat)
  mq : List (Nat × List (Nat × List MsgData))
deriving DecidableEq

def initState : ServerState := ⟨0, [], [], [], [], [], []⟩

/-- `RoomManager.get_room`: dict lookup of the room object. -/
def getRoom (rid : Nat) (s : ServerState) : Option ChatRoom :=
  (alookup rid s.roomKeys).bind fun ref => alookup ref s.store

/-- Contents of the long-poll channel registered for `(rid, uid)`, if any. -/
def mqGet (rid uid : Nat) (s : ServerState) : Option (List MsgData) :=
  (alookup rid s.mq).bind fun chans => alookup uid chans

/-- `QueueManager.pop_pair`: pop the two oldest entries when at least two
are present, otherwise leave the queue unchanged and report `none`. -/
def popPairQ {α : Type} : List α → Option (α × α) × List α
  | a :: b :: rest => (some (a, b), rest)
  | q => (none, q)

/-- `QueueManager.get_position` (1-indexed). -/
def getPosition (uid : Nat) : List User → Option Nat
  | [] => none
  | u :: rest =>
    if u.user_id = uid then some 1 else (getPosition uid rest).map (· + 1)

/-- `RoomManager.create_room`: allocate a room object under a generated
id, mark it active and index both occupants to it. -/
def createRoom (u1 u2 : User) (s : ServerState) : ChatRoom × ServerState :=
  let gen := s.fresh
  let room : ChatRoom := ⟨gen, u1, u2, true⟩
  (room,
   { s with
       fresh := gen + 1
       store := aupd gen room s.store
       roomKeys := aupd gen gen s.roomKeys
       userToRoom := aupd u2.user_id gen (aupd u1.user_id gen s.userToRoom) })

/-- `RoomManager.close_room`: deactivate the room, drop both occupants
from the user→room index, keep the record retrievable. -/
def closeRoom (rid : Nat) (s : ServerState) : Option ChatRoom × ServerState :=
  match alookup rid s.roomKeys with
  | none => (none, s)
  | some ref =>
    match alookup ref s.store with
    | none => (none, s)
    | some room =>
      let room' := { room with active := false }
      (some room',
       { s with
           store := aupd ref room' s.store
           userToRoom :=
             aerase room.user2.user_id (aerase room.user1.user_id s.userToRoom) })

/-- `RoomManager.remove_user` (state effect): resolve the user's room via
the index and close it under the record's own `room_id`. -/
def removeUserRoomS (uid : Nat) (s : ServerState) : ServerState :=
  match alookup uid s.userToRoom with
  | none => s
  | some rid =>
    match getRoom rid s with
    | none => s
    | some room => (closeRoom room.room_id s).2

/-- Timeout clamp in `wait_for_message`: `min(timeout, 300)` then
`max(timeout, 1)`. -/
def clampTimeout (t : Int) : Int :=
  max (min t 300) 1

/-! ## Tool handlers (`server.py`)

The handlers run on an asyncio event loop; each lock-protected manager
call is atomic, but a handler may interleave with others between such
calls.  `enter_queue` is therefore split into its two atomic phases
(enqueue, then pair-and-create), and `wait_for_message` into
registration and completion; the exported handler functions compose the
phases.  `send_message`, `join_room`, `leave_chat` and the disconnect
handler are modelled as single steps. -/

/-- Result of `enter_queue`. -/
inductive EnterResult
  | matched (room_id partner_id : Nat) (partner_name : String) (client_id : Nat)
  | waiting (position queue_length client_id : Nat)
deriving DecidableEq

/-- Result of `join_room`. -/
inductive JoinResult
  | room_created (room_id client_id : Nat)
  | joined (room_id client_id : Nat) (partner : Option String)
  | jerr (msg : String) (client_id : Nat)
deriving DecidableEq

/-- Result of `send_message`: `{"success": true, "message_id": ...}` or
`{"success": false, "error": ...}`. -/
inductive SendResult
  | ok (message_id : Nat)
  | serr (msg : String)
deriving DecidableEq

/-- Result of `leave_chat`. -/
inductive LeaveResult
  | ok
  | lerr (msg : String)
deriving DecidableEq

/-- Result of `wait_for_message`: a delivered message, the timeout
outcome, a propagated cancellation, or a structured error. -/
inductive WaitResult
  | msg (content sender : String) (message_id : Nat)
  | wtimeout
  | wcancelled
  | werr (msg : String)
deriving DecidableEq

/-- Phase 1 of `enter_queue`: generate a connection id and a user id,
record the session and append the new user to the wait queue. -/
def enter_add (dn : Option String) (s : ServerState) : ServerState :=
  let user : User := ⟨s.fresh + 1, dn, s.fresh⟩
  { s with
      fresh := s.fresh + 2
      connections := aupd s.fresh user s.connections
      queue := s.queue ++ [user] }

/-- Phase 2 of `enter_queue` (state effect): `pop_pair`, and on success
`create_room` for the popped pair. -/
def enter_match (s : ServerState) : ServerState :=
  match popPairQ s.queue with
  | (some (u1, u2), rest) => (createRoom u1 u2 { s with queue := rest }).2
  | (none, _) => s

/-- `enter_queue`: both phases, plus the response computed for the
caller.  On a match the caller's partner is `user2` of the popped pair
when the caller is `user1`, and `user1` otherwise. -/
def enter_queue (dn : Option String) (s : ServerState) : EnterResult × ServerState :=
  let cid := s.fresh
  let user : User := ⟨s.fresh + 1, dn, cid⟩
  let s1 := enter_add dn s
  match popPairQ s1.queue with
  | (some (u1, u2), rest) =>
    let (room, s2) := createRoom u1 u2 { s1 with queue := rest }
    let partner := if user.user_id = u1.user_id then u2 else u1
    (.matched room.room_id partner.user_id partner.name cid, s2)
  | (none, q) =>
    (.waiting ((getPosition user.user_id q).getD 1) q.length cid, s1)

/-- The `join_room` branch for an unknown room id: `create_room(user,
user)` registers the one fresh object under its generated id, then the
handler overrides the object's `room_id` with the caller-supplied id,
registers the same object under that id too, and re-points the
occupant's index entry at the caller-supplied id. -/
def joinCreate (rid cid : Nat) (user : User) (s : ServerState) :
    JoinResult × ServerState :=
  let (room, s2) := createRoom user user s
  let gen := room.room_id
  let room' := { room with room_id := rid }
  let s3 :=
    { s2 with
        store := aupd gen room' s2.store
        roomKeys := aupd rid gen s2.roomKeys
        userToRoom := aupd user.user_id rid s2.userToRoom }
  (.room_created rid cid, s3)

/-- The occupant count computed by `join_room`: slots deduplicated when
aliased, and an occupant counts only when its user id belongs to some
live session (`connections.values()`). -/
def joinCount (room : ChatRoom) (conns : List (Nat × User)) : Nat :=
  let activeIds := conns.map fun p => p.2.user_id
  let c1 : Bool := activeIds.contains room.user1.user_id
  let c2 : Bool :=
    room.user2.user_id != room.user1.user_id &&
      activeIds.contains room.user2.user_id
  (if c1 then 1 else 0) + (if c2 then 1 else 0)

/-- The join notification push of `join_room`.  The source guards it by
`partner.user_id in connections`, which tests the partner's *user id*
against the dict of *connection-id keys*, so the guard is effectively
always false; it is modelled exactly as written. -/
def joinNotify (rid partnerUid : Nat) (userName : String) (s : ServerState) :
    ServerState :=
  if (alookup partnerUid s.connections).isSome then
    match alookup rid s.mq with
    | none => s
    | some chans =>
      match alookup partnerUid chans with
      | none => s
      | some ch =>
        let jm : MsgData :=
          ⟨"[System] " ++ userName ++ " has joined the chat.",
           "System", none, s.fresh, true, false⟩
        { s with
            fresh := s.fresh + 1
            mq := aupd rid (aupd partnerUid (qput ch jm) chans) s.mq }
  else s

/-- `join_room`: mint a fresh session, then create the room when the id
is unknown, reject inactive or full rooms, and otherwise fill a slot
(slot 1 when no occupant is live, else slot 2).  The counter is first
bumped past the caller-supplied room id, the model's uuid-freshness
discipline. -/
def join_room (rid : Nat) (dn : String) (s : ServerState) :
    JoinResult × ServerState :=
  let s0 := { s with fresh := max s.fresh (rid + 1) }
  let cid := s0.fresh
  let user : User := ⟨s0.fresh + 1, some dn, cid⟩
  let s1 :=
    { s0 with
        fresh := s0.fresh + 2
        connections := aupd cid user s0.connections }
  match alookup rid s1.roomKeys with
  | none => joinCreate rid cid user s1
  | some ref =>
    match alookup ref s1.store with
    | none => joinCreate rid cid user s1
    | some room =>
      if room.active = false then (.jerr "Room is no longer active" cid, s1)
      else
        let count := joinCount room s1.connections
        if 2 ≤ count then (.jerr "Room is full" cid, s1)
        else if count = 0 then
          let room' := { room with user1 := user }
          let s2 :=
            { s1 with
                store := aupd ref room' s1.store
                userToRoom := aupd user.user_id rid s1.userToRoom }
          (.joined rid cid ((room'.get_partner user.user_id).map User.name), s2)
        else
          let room' := { room with user2 := user }
          let s2 := { s1 with store := aupd ref room' s1.store }
          let s2b := joinNotify rid room.user1.user_id user.name s2
          let s3 := { s2b with userToRoom := aupd user.user_id rid s2b.userToRoom }
          (.joined rid cid ((room'.get_partner user.user_id).map User.name), s3)

/-- `send_message`: resolve the session, validate the room, then push
the message into every currently registered long-poll channel of the
room except the sender's own; a full channel drops the message. -/
def send_message (rid : Nat) (text : String) (client : Nat) (s : ServerState) :
    SendResult × ServerState :=
  match alookup client s.connections with
  | none => (.serr ("User not found. Invalid client_id: " ++ toString client), s)
  | some user =>
    match getRoom rid s with
    | none => (.serr "Room not found", s)
    | some room =>
      if room.active = false then (.serr "Chat has ended", s)
      else if room.has_user user.user_id = false then
        (.serr "You are not in this room", s)
      else
        match room.get_partner user.user_id with
        | none => (.serr "Partner not found", s)
        | some _ =>
          let mid := s.fresh
          let md : MsgData := ⟨text, user.name, some user.user_id, mid, false, false⟩
          let s1 := { s with fresh := s.fresh + 1 }
          let s2 :=
            match alookup rid s1.mq with
            | none => s1
            | some chans =>
              { s1 with
                  mq := aupd rid
                    (chans.map fun p =>
                      if p.1 = user.user_id then p else (p.1, qput p.2 md))
                    s1.mq }
          (.ok mid, s2)

/-- `leave_chat`: resolve the session, require the room to exist and the
caller to be a member (the `active` flag is not checked), close the
room, then push a system disconnect message into the partner's
registered channel when one exists. -/
def leave_chat (rid : Nat) (client : Nat) (s : ServerState) :
    LeaveResult × ServerState :=
  match alookup client s.connections with
  | none => (.lerr "User not found", s)
  | some user =>
    match getRoom rid s with
    | none => (.lerr "Room not found", s)
    | some room =>
      if room.has_user user.user_id = false then
        (.lerr "You are not in this room", s)
      else
        let partner := room.get_partner user.user_id
        let s1 := (closeRoom rid s).2
        let s2 :=
          match partner with
          | none => s1
          | some p =>
            match alookup rid s1.mq with
            | none => s1
            | some chans =>
              match alookup p.user_id chans with
              | none => s1
              | some ch =>
                let dm : MsgData :=
                  ⟨"[System] Your chat partner has left the conversation.",
                   "System", none, s1.fresh, true, true⟩
                { s1 with
                    fresh := s1.fresh + 1
                    mq := aupd rid (aupd p.user_id (qput ch dm) chans) s1.mq }
        (.ok, s2)

/-- Registration result for the first phase of `wait_for_message`. -/
inductive RegResult
  | rerr (msg : String)
  | rok (uid : Nat)
deriving DecidableEq

/-- Phase 1 of `wait_for_message`: validate, then register a fresh empty
bounded channel under `(room_id, user_id)`, replacing any previous
registration for that key. -/
def wait_register (rid client : Nat) (s : ServerState) :
    RegResult × ServerState :=
  match alookup client s.connections with
  | none =>
    (.rerr ("User not found. Invalid client_id: " ++ toString client), s)
  | some user =>
    match getRoom rid s with
    | none => (.rerr "Room not found", s)
    | some room =>
      if room.active = false then (.rerr "Chat has ended", s)
      else if room.has_user user.user_id = false then
        (.rerr "You are not in this room", s)
      else
        let chans := (alookup rid s.mq).getD []
        (.rok user.user_id,
         { s with mq := aupd rid (aupd user.user_id [] chans) s.mq })

/-- Phase 2 of `wait_for_message`: the outcome (first queued message,
timeout when none, or propagated cancellation), followed by the
`finally` cleanup that removes the registration and prunes the empty
per-room dict. -/
def wait_finish (rid uid : Nat) (cancelled : Bool) (s : ServerState) :
    WaitResult × ServerState :=
  let ch :=
    match alookup rid s.mq with
    | none => ([] : List MsgData)
    | some chans => (alookup uid chans).getD []
  let res :=
    if cancelled then WaitResult.wcancelled
    else
      match ch with
      | [] => WaitResult.wtimeout
      | m :: _ => WaitResult.msg m.content m.sender_name m.message_id
  let s' :=
    match alookup rid s.mq with
    | none => s
    | some chans =>
      match alookup uid chans with
      | none => s
      | some _ =>
        let chans' := aerase uid chans
        if chans'.isEmpty then { s with mq := aerase rid s.mq }
        else { s with mq := aupd rid chans' s.mq }
  (res, s')

/-- Deliveries that reach the waiter's channel between registration and
completion (each one a `put_nowait` by some sender). -/
def injectArrivals (rid uid : Nat) (ms : List MsgData) (s : ServerState) :
    ServerState :=
  ms.foldl
    (fun t m =>
      match alookup rid t.mq with
      | none => t
      | some chans =>
        match alookup uid chans with
        | none => t
        | some ch => { t with mq := aupd rid (aupd uid (qput ch m) chans) t.mq })
    s

/-- `wait_for_message` end to end: clamp the timeout, validate and
register, let `arrivals` land in the channel during the wait, then
complete (message, timeout, or cancellation) and clean up. -/
def wait_for_message (rid client : Nat) (t : Int) (arrivals : List MsgData)
    (cancelled : Bool) (s : ServerState) : WaitResult × ServerState :=
  let _tclamped := clampTimeout t
  match wait_register rid client s with
  | (.rerr e, s1) => (.werr e, s1)
  | (.rok uid, s1) => wait_finish rid uid cancelled (injectArrivals rid uid arrivals s1)

/-- `handle_disconnect`: drop the user from the wait queue, close their
room via the user→room index, and revoke the session. -/
def handle_disconnect (cid : Nat) (s : ServerState) : ServerState :=
  match alookup cid s.connections with
  | none => s
  | some user =>
    let s1 := { s with queue := s.queue.filter fun u => u.user_id != user.user_id }
    let s2 := removeUserRoomS user.user_id s1
    { s2 with connections := aerase cid s2.connections }

/-! ## The step machine -/

/-- One atomic step of the server.  `enterAdd`/`enterMatch` are the two
phases of `enter_queue`, `wreg`/`wfin` the phases of `wait_for_message`;
the remaining handlers run as single steps. -/
inductive Op
  | enterAdd (dn : Option String)
  | enterMatch
  | join (rid : Nat) (dn : String)
  | send (rid : Nat) (text : String) (client : Nat)
  | leave (rid : Nat) (client : Nat)
  | wreg (rid client : Nat)
  | wfin (rid uid : Nat) (cancelled : Bool)
  | disc (cid : Nat)

/-- State effect of a step. -/
def applyOp : Op → ServerState → ServerState
  | .enterAdd dn, s => enter_add dn s
  | .enterMatch, s => enter_match s
  | .join rid dn, s => (join_room rid dn s).2
  | .send rid text client, s => (send_message rid text client s).2
  | .leave rid client, s => (leave_chat rid client s).2
  | .wreg rid client, s => (wait_register rid client s).2
  | .wfin rid uid c, s => (wait_finish rid uid c s).2
  | .disc cid, s => handle_disconnect cid s

/-- States reachable from the empty initial state. -/
inductive Reachable : ServerState → Prop
  | init : Reachable initState
  | step (o : Op) {s : ServerState} : Reachable s → Reachable (applyOp o s)

/-- The full `enter_queue` handler is the composition of its two atomic
phases, so its effect is covered by the step machine. -/
theorem enter_queue_eq_phases (dn : Option String) (s : ServerState) :
    (enter_queue dn s).2 = enter_match (enter_add dn s) := by
  unfold enter_queue enter_match
  rcases h : popPairQ (enter_add dn s).queue with ⟨opt, rest⟩
  rcases opt with _ | ⟨u1, u2⟩ <;> simp [h]

/-! ## The room/index invariant

`Inv` bundles the property claimed by the spec (`main`: every active
room record has both occupants pointing back at it through the
user→room index and the room-id table) with the bookkeeping facts that
make it inductive: all uuid tokens in use are below the freshness
counter, the wait queue holds no duplicates, queued users are neither
indexed nor occupants, and distinct room objects have disjoint occupant
ids. -/

structure Inv (s : ServerState) : Prop where
  qbound : ∀ u ∈ s.queue, u.user_id < s.fresh
  storeKeyBound : ∀ p ∈ s.store, p.1 < s.fresh
  occBound : ∀ p ∈ s.store,
    p.2.user1.user_id < s.fresh ∧ p.2.user2.user_id < s.fresh
  rkBound : ∀ p ∈ s.roomKeys, p.1 < s.fresh
  u2rKeyBound : ∀ p ∈ s.userToRoom, p.1 < s.fresh
  main : ∀ ref r, alookup ref s.store = some r → r.active = true →
    (∃ k, alookup r.user1.user_id s.userToRoom = some k ∧
          alookup k s.roomKeys = some ref) ∧
    (∃ k, alookup r.user2.user_id s.userToRoom = some k ∧
          alookup k s.roomKeys = some ref)
  qnodup : (s.queue.map User.user_id).Nodup
  qnoidx : ∀ u ∈ s.queue, alookup u.user_id s.userToRoom = none
  qnotocc : ∀ u ∈ s.queue, ∀ p ∈ s.store,
    u.user_id ≠ p.2.user1.user_id ∧ u.user_id ≠ p.2.user2.user_id
  occdisj : ∀ ref r ref' r', alookup ref s.store = some r →
    alookup ref' s.store = some r' → ref ≠ ref' →
    r.user1.user_id ≠ r'.user1.user_id ∧ r.user1.user_id ≠ r'.user2.user_id ∧
    r.user2.user_id ≠ r'.user1.user_id ∧ r.user2.user_id ≠ r'.user2.user_id

theorem alookup_bound_none {α : Type} {l : List (Nat × α)} {c k : Nat}
    (hb : ∀ p ∈ l, p.1 < c) (hk : c ≤ k) : alookup k l = none :=
  alookup_eq_none fun p hp => by have := hb p hp; omega

/-- Frame rule: `Inv` only looks at the queue, the room maps and the
freshness counter, so any step that keeps those (up to a counter
increase) preserves it. -/
theorem Inv.replace {s t : ServerState} (h : Inv s) (hf : s.fresh ≤ t.fresh)
    (hq : t.queue = s.queue) (hst : t.store = s.store)
    (hrk : t.roomKeys = s.roomKeys) (hu : t.userToRoom = s.userToRoom) :
    Inv t := by
  refine ⟨?_, ?_, ?_, ?_, ?_, ?_, ?_, ?_, ?_, ?_⟩
  · rw [hq]; exact fun u hu' => lt_of_lt_of_le (h.qbound u hu') hf
  · rw [hst]; exact fun p hp => lt_of_lt_of_le (h.storeKeyBound p hp) hf
  · rw [hst]
    exact fun p hp => ⟨lt_of_lt_of_le (h.occBound p hp).1 hf,
      lt_of_lt_of_le (h.occBound p hp).2 hf⟩
  · rw [hrk]; exact fun p hp => lt_of_lt_of_le (h.rkBound p hp) hf
  · rw [hu]; exact fun p hp => lt_of_lt_of_le (h.u2rKeyBound p hp) hf
  · rw [hst, hu, hrk]; exact h.main
  · rw [hq]; exact h.qnodup
  · rw [hq, hu]; exact h.qnoidx
  · rw [hq, hst]; exact h.qnotocc
  · rw [hst]; exact h.occdisj

theorem inv_init : Inv initState := by
  refine ⟨?_, ?_, ?_, ?_, ?_, ?_, ?_, ?_, ?_, ?_⟩ <;>
    simp [initState, alookup]

theorem inv_enter_add (dn : Option String) {s : ServerState} (h : Inv s) :
    Inv (enter_add dn s) := by
  refine ⟨?_, ?_, ?_, ?_, ?_, ?_, ?_, ?_, ?_, ?_⟩ <;>
    simp only [enter_add]
  · intro u hu
    rcases List.mem_append.1 hu with hu | hu
    · have := h.qbound u hu; omega
    · simp at hu; subst hu; exact Nat.lt_succ_self (s.fresh + 1)
  · intro p hp; have := h.storeKeyBound p hp; omega
  · intro p hp; have := h.occBound p hp; omega
  · intro p hp; have := h.rkBound p hp; omega
  · intro p hp; have := h.u2rKeyBound p hp; omega
  · exact h.main
  · simp only [List.map_append, List.map_cons, List.map_nil]
    rw [List.nodup_append]
    refine ⟨h.qnodup, List.nodup_singleton _, ?_⟩
    intro x hx hx'
    simp at hx'
    rcases List.mem_map.1 hx with ⟨u, hu, hxu⟩
    have := h.qbound u hu
    omega
  · intro u hu
    rcases List.mem_append.1 hu with hu | hu
    · exact h.qnoidx u hu
    · simp at hu; subst hu
      exact alookup_bound_none h.u2rKeyBound (Nat.le_succ _)
  · intro u hu p hp
    rcases List.mem_append.1 hu with hu | hu
    · exact h.qnotocc u hu p hp
    · simp at hu; subst hu
      have := h.occBound p hp
      constructor <;> simp <;> omega
  · exact h.occdisj

theorem inv_enter_match {s : ServerState} (h : Inv s) : Inv (enter_match s) := by
  rcases hq : s.queue with _ | ⟨a, tail⟩
  · simpa [enter_match, popPairQ, hq] using h
  rcases tail with _ | ⟨b, t⟩
  · simpa [enter_match, popPairQ, hq] using h
  have ha : a ∈ s.queue := by rw [hq]; exact List.mem_cons_self _ _
  have hb : b ∈ s.queue := by
    rw [hq]; exact List.mem_cons_of_mem _ (List.mem_cons_self _ _)
  have haF : a.user_id < s.fresh := h.qbound a ha
  have hbF : b.user_id < s.fresh := h.qbound b hb
  have hnd := h.qnodup
  rw [hq] at hnd
  simp only [List.map_cons, List.nodup_cons, List.mem_cons, List.mem_map] at hnd
  have hab : a.user_id ≠ b.user_id := fun e => hnd.1 (Or.inl e)
  have hat : ∀ u ∈ t, u.user_id ≠ a.user_id := by
    intro u hu e
    exact hnd.1 (Or.inr ⟨u, hu, e⟩)
  have hbt : ∀ u ∈ t, u.user_id ≠ b.user_id := by
    intro u hu e
    exact hnd.2.1 ⟨u, hu, e⟩
  have htmem : ∀ u ∈ t, u ∈ s.queue := by
    intro u hu
    rw [hq]
    exact List.mem_cons_of_mem _ (List.mem_cons_of_mem _ hu)
  simp only [enter_match, popPairQ, hq, createRoom]
  refine ⟨?_, ?_, ?_, ?_, ?_, ?_, ?_, ?_, ?_, ?_⟩ <;> dsimp only
  · intro u hu
    have := h.qbound u (htmem u hu)
    omega
  · intro p hp
    rcases mem_aupd hp with hp | hp
    · subst hp; exact Nat.lt_succ_self _
    · have := h.storeKeyBound p hp; omega
  · intro p hp
    rcases mem_aupd hp with hp | hp
    · subst hp; exact ⟨by dsimp; omega, by dsimp; omega⟩
    · have := h.occBound p hp; omega
  · intro p hp
    rcases mem_aupd hp with hp | hp
    · subst hp; exact Nat.lt_succ_self _
    · have := h.rkBound p hp; omega
  · intro p hp
    rcases mem_aupd hp with hp | hp
    · subst hp; dsimp; omega
    · rcases mem_aupd hp with hp | hp
      · subst hp; dsimp; omega
      · have := h.u2rKeyBound p hp; omega
  · intro ref r hr hact
    by_cases href : ref = s.fresh
    · subst href
      rw [alookup_aupd_self] at hr
      cases hr
      constructor
      · exact ⟨s.fresh, by rw [alookup_aupd_ne _ _ hab, alookup_aupd_self],
          by rw [alookup_aupd_self]⟩
      · exact ⟨s.fresh, by rw [alookup_aupd_self], by rw [alookup_aupd_self]⟩
    · rw [alookup_aupd_ne _ _ href] at hr
      obtain ⟨⟨k1, hk11, hk12⟩, ⟨k2, hk21, hk22⟩⟩ := h.main ref r hr hact
      have hmem := alookup_mem hr
      have hna := h.qnotocc a ha _ hmem
      have hnb := h.qnotocc b hb _ hmem
      have hk1F : k1 < s.fresh := h.rkBound _ (alookup_mem hk12)
      have hk2F : k2 < s.fresh := h.rkBound _ (alookup_mem hk22)
      constructor
      · refine ⟨k1, ?_, ?_⟩
        · rw [alookup_aupd_ne _ _ (Ne.symm hnb.1), alookup_aupd_ne _ _ (Ne.symm hna.1)]
          exact hk11
        · rw [alookup_aupd_ne _ _ (by omega : k1 ≠ s.fresh)]
          exact hk12
      · refine ⟨k2, ?_, ?_⟩
        · rw [alookup_aupd_ne _ _ (Ne.symm hnb.2), alookup_aupd_ne _ _ (Ne.symm hna.2)]
          exact hk21
        · rw [alookup_aupd_ne _ _ (by omega : k2 ≠ s.fresh)]
          exact hk22
  · exact hnd.2.2
  · intro u hu
    rw [alookup_aupd_ne _ _ (hbt u hu), alookup_aupd_ne _ _ (hat u hu)]
    exact h.qnoidx u (htmem u hu)
  · intro u hu p hp
    rcases mem_aupd hp with hp | hp
    · subst hp
      exact ⟨hat u hu, hbt u hu⟩
    · exact h.qnotocc u (htmem u hu) p hp
  · intro ref r ref' r' hr hr' hne
    by_cases h1 : ref = s.fresh <;> by_cases h2 : ref' = s.fresh
    · exact absurd (h1.trans h2.symm) hne
    · subst h1
      rw [alookup_aupd_self] at hr
      cases hr
      rw [alookup_aupd_ne _ _ h2] at hr'
      have hna := h.qnotocc a ha _ (alookup_mem hr')
      have hnb := h.qnotocc b hb _ (alookup_mem hr')
      exact ⟨hna.1, hna.2, hnb.1, hnb.2⟩
    · subst h2
      rw [alookup_aupd_self] at hr'
      cases hr'
      rw [alookup_aupd_ne _ _ h1] at hr
      have hna := h.qnotocc a ha _ (alookup_mem hr)
      have hnb := h.qnotocc b hb _ (alookup_mem hr)
      exact ⟨Ne.symm hna.1, Ne.symm hnb.1, Ne.symm hna.2, Ne.symm hnb.2⟩
    · rw [alookup_aupd_ne _ _ h1] at hr
      rw [alookup_aupd_ne _ _ h2] at hr'
      exact h.occdisj ref r ref' r' hr hr' hne

theorem inv_closeRoom (rid : Nat) {s : ServerState} (h : Inv s) :
    Inv (closeRoom rid s).2 := by
  rcases hrk : alookup rid s.roomKeys with _ | ref
  · simpa only [closeRoom, hrk] using h
  rcases hst : alookup ref s.store with _ | room
  · simpa only [closeRoom, hrk, hst] using h
  simp only [closeRoom, hrk, hst]
  have hmem := alookup_mem hst
  have hrefF : ref < s.fresh := h.storeKeyBound _ hmem
  refine ⟨?_, ?_, ?_, ?_, ?_, ?_, ?_, ?_, ?_, ?_⟩ <;> dsimp only
  · exact h.qbound
  · intro p hp
    rcases mem_aupd hp with hp | hp
    · subst hp; exact hrefF
    · exact h.storeKeyBound p hp
  · intro p hp
    rcases mem_aupd hp with hp | hp
    · subst hp; exact h.occBound (ref, room) hmem
    · exact h.occBound p hp
  · exact h.rkBound
  · intro p hp
    exact h.u2rKeyBound p (mem_aerase (mem_aerase hp))
  · intro ref' r' hr' hact
    by_cases href : ref' = ref
    · subst href
      rw [alookup_aupd_self] at hr'
      cases hr'
      simp at hact
    · rw [alookup_aupd_ne _ _ href] at hr'
      obtain ⟨⟨k1, hk11, hk12⟩, ⟨k2, hk21, hk22⟩⟩ := h.main ref' r' hr' hact
      have hdj := h.occdisj ref' r' ref room hr' hst href
      constructor
      · refine ⟨k1, ?_, hk12⟩
        rw [alookup_aerase, if_neg hdj.2.1, alookup_aerase, if_neg hdj.1]
        exact hk11
      · refine ⟨k2, ?_, hk22⟩
        rw [alookup_aerase, if_neg hdj.2.2.2, alookup_aerase, if_neg hdj.2.2.1]
        exact hk21
  · exact h.qnodup
  · intro u hu
    rw [alookup_aerase, alookup_aerase]
    have := h.qnoidx u hu
    split <;> [rfl; (split <;> [rfl; exact this])]
  · intro u hu p hp
    rcases mem_aupd hp with hp | hp
    · subst hp; exact h.qnotocc u hu (ref, room) hmem
    · exact h.qnotocc u hu p hp
  · intro ref1 r1 ref2 r2 hr1 hr2 hne
    by_cases h1 : ref1 = ref <;> by_cases h2 : ref2 = ref
    · exact absurd (h1.trans h2.symm) hne
    · rw [h1, alookup_aupd_self] at hr1
      cases hr1
      rw [alookup_aupd_ne _ _ h2] at hr2
      exact h.occdisj ref room ref2 r2 hst hr2 (h1 ▸ hne)
    · rw [h2, alookup_aupd_self] at hr2
      cases hr2
      rw [alookup_aupd_ne _ _ h1] at hr1
      exact h.occdisj ref1 r1 ref room hr1 hst (h2 ▸ hne)
    · rw [alookup_aupd_ne _ _ h1] at hr1
      rw [alookup_aupd_ne _ _ h2] at hr2
      exact h.occdisj ref1 r1 ref2 r2 hr1 hr2 hne

theorem inv_leave (rid client : Nat) {s : ServerState} (h : Inv s) :
    Inv (leave_chat rid client s).2 := by
  rcases hc : alookup client s.connections with _ | user
  · simpa only [leave_chat, hc] using h
  rcases hg : getRoom rid s with _ | room
  · simpa only [leave_chat, hc, hg] using h
  rcases hm : room.has_user user.user_id with _ | _
  · simpa only [leave_chat, hc, hg, hm, if_true] using h
  simp only [leave_chat, hc, hg, hm, Bool.true_eq_false, if_false]
  have h1 : Inv (closeRoom rid s).2 := inv_closeRoom rid h
  rcases hp : room.get_partner user.user_id with _ | p
  · simp only [hp]; exact h1
  simp only [hp]
  rcases hch : alookup rid (closeRoom rid s).2.mq with _ | chans
  · simp only [hch]; exact h1
  simp only [hch]
  rcases hcu : alookup p.user_id chans with _ | ch
  · simp only [hcu]; exact h1
  simp only [hcu]
  exact h1.replace (Nat.le_succ _) rfl rfl rfl rfl

theorem inv_removeUserRoomS (uid : Nat) {s : ServerState} (h : Inv s) :
    Inv (removeUserRoomS uid s) := by
  rcases hu : alookup uid s.userToRoom with _ | rid
  · simpa only [removeUserRoomS, hu] using h
  rcases hg : getRoom rid s with _ | room
  · simpa only [removeUserRoomS, hu, hg] using h
  simp only [removeUserRoomS, hu, hg]
  exact inv_closeRoom room.room_id h

theorem inv_disc (cid : Nat) {s : ServerState} (h : Inv s) :
    Inv (handle_disconnect cid s) := by
  rcases hc : alookup cid s.connections with _ | user
  · simpa only [handle_disconnect, hc] using h
  simp only [handle_disconnect, hc]
  have h1 :
      Inv { s with queue := s.queue.filter fun u => u.user_id != user.user_id } := by
    refine ⟨?_, h.storeKeyBound, h.occBound, h.rkBound, h.u2rKeyBound, h.main,
      ?_, ?_, ?_, h.occdisj⟩ <;> dsimp only
    · intro u hu
      exact h.qbound u (List.mem_of_mem_filter hu)
    · exact h.qnodup.sublist (List.Sublist.map _ (List.filter_sublist _))
    · intro u hu
      exact h.qnoidx u (List.mem_of_mem_filter hu)
    · intro u hu p hp
      exact h.qnotocc u (List.mem_of_mem_filter hu) p hp
  have h2 := inv_removeUserRoomS user.user_id h1
  exact h2.replace (le_refl _) rfl rfl rfl rfl

theorem frame_send (rid : Nat) (text : String) (client : Nat) (s : ServerState) :
    s.fresh ≤ (send_message rid text client s).2.fresh ∧
    (send_message rid text client s).2.queue = s.queue ∧
    (send_message rid text client s).2.store = s.store ∧
    (send_message rid text client s).2.roomKeys = s.roomKeys ∧
    (send_message rid text client s).2.userToRoom = s.userToRoom := by
  rcases hc : alookup client s.connections with _ | user
  · simp [send_message, hc]
  rcases hg : getRoom rid s with _ | room
  · simp [send_message, hc, hg]
  by_cases ha : room.active = false
  · simp [send_message, hc, hg, ha]
  by_cases hm : room.has_user user.user_id = false
  · simp [send_message, hc, hg, ha, hm]
  simp only [send_message, hc, hg, ha, hm, if_false]
  rcases hp : room.get_partner user.user_id with _ | p
  · simp [hp]
  simp only [hp]
  rcases hq : alookup rid s.mq with _ | chans <;> simp [hq, Nat.le_succ]

theorem inv_send (rid : Nat) (text : String) (client : Nat) {s : ServerState}
    (h : Inv s) : Inv (send_message rid text client s).2 := by
  obtain ⟨h1, h2, h3, h4, h5⟩ := frame_send rid text client s
  exact h.replace h1 h2 h3 h4 h5

theorem inv_joinCreate {t : ServerState} (h : Inv t) (rid cid : Nat)
    (user : User) (hu1 : ∀ uu ∈ t.queue, uu.user_id ≠ user.user_id)
    (huocc : ∀ p ∈ t.store, user.user_id ≠ p.2.user1.user_id ∧
      user.user_id ≠ p.2.user2.user_id)
    (hufresh : user.user_id < t.fresh) (hridF : rid < t.fresh)
    (hgr : getRoom rid t = none) :
    Inv (joinCreate rid cid user t).2 := by
  simp only [joinCreate, createRoom, aupd_aupd_same]
  refine ⟨?_, ?_, ?_, ?_, ?_, ?_, ?_, ?_, ?_, ?_⟩ <;> dsimp only
  · intro u hu
    have := h.qbound u hu
    omega
  · intro p hp
    rcases mem_aupd hp with hp | hp
    · subst hp; exact Nat.lt_succ_self _
    · have := h.storeKeyBound p hp; omega
  · intro p hp
    rcases mem_aupd hp with hp | hp
    · subst hp; exact ⟨by dsimp; omega, by dsimp; omega⟩
    · have := h.occBound p hp; omega
  · intro p hp
    rcases mem_aupd hp with hp | hp
    · subst hp; dsimp; omega
    · rcases mem_aupd hp with hp | hp
      · subst hp; dsimp; omega
      · have := h.rkBound p hp; omega
  · intro p hp
    rcases mem_aupd hp with hp | hp
    · subst hp; dsimp; omega
    · have := h.u2rKeyBound p hp; omega
  · intro ref2 r2 hr2 hact2
    by_cases h2 : ref2 = t.fresh
    · rw [h2, alookup_aupd_self] at hr2
      cases hr2
      rw [h2]
      refine ⟨⟨rid, ?_, ?_⟩, ⟨rid, ?_, ?_⟩⟩ <;>
        rw [alookup_aupd_self] <;> try rfl
    · rw [alookup_aupd_ne _ _ h2] at hr2
      obtain ⟨⟨k1, hk11, hk12⟩, ⟨k2, hk21, hk22⟩⟩ := h.main ref2 r2 hr2 hact2
      have hno := huocc _ (alookup_mem hr2)
      have hk1ne : k1 ≠ rid := by
        intro e
        rw [e] at hk12
        rw [getRoom, hk12] at hgr
        simp at hgr
        rw [hgr] at hr2
        cases hr2
      have hk2ne : k2 ≠ rid := by
        intro e
        rw [e] at hk22
        rw [getRoom, hk22] at hgr
        simp at hgr
        rw [hgr] at hr2
        cases hr2
      have hk1F : k1 < t.fresh := h.rkBound _ (alookup_mem hk12)
      have hk2F : k2 < t.fresh := h.rkBound _ (alookup_mem hk22)
      constructor
      · refine ⟨k1, ?_, ?_⟩
        · rw [alookup_aupd_ne _ _ (Ne.symm hno.1)]
          exact hk11
        · rw [alookup_aupd_ne _ _ hk1ne, alookup_aupd_ne _ _ (by omega : k1 ≠ t.fresh)]
          exact hk12
      · refine ⟨k2, ?_, ?_⟩
        · rw [alookup_aupd_ne _ _ (Ne.symm hno.2)]
          exact hk21
        · rw [alookup_aupd_ne _ _ hk2ne, alookup_aupd_ne _ _ (by omega : k2 ≠ t.fresh)]
          exact hk22
  · exact h.qnodup
  · intro u hu
    rw [alookup_aupd_ne _ _ (hu1 u hu)]
    exact h.qnoidx u hu
  · intro u hu p hp
    rcases mem_aupd hp with hp | hp
    · subst hp
      exact ⟨hu1 u hu, hu1 u hu⟩
    · exact h.qnotocc u hu p hp
  · intro ref1 r1 ref2 r2 hr1 hr2 hne
    by_cases h1 : ref1 = t.fresh <;> by_cases h2 : ref2 = t.fresh
    · exact absurd (h1.trans h2.symm) hne
    · rw [h1, alookup_aupd_self] at hr1
      cases hr1
      rw [alookup_aupd_ne _ _ h2] at hr2
      have hno := huocc _ (alookup_mem hr2)
      exact ⟨hno.1, hno.2, hno.1, hno.2⟩
    · rw [h2, alookup_aupd_self] at hr2
      cases hr2
      rw [alookup_aupd_ne _ _ h1] at hr1
      have hno := huocc _ (alookup_mem hr1)
      exact ⟨Ne.symm hno.1, Ne.symm hno.1, Ne.symm hno.2, Ne.symm hno.2⟩
    · rw [alookup_aupd_ne _ _ h1] at hr1
      rw [alookup_aupd_ne _ _ h2] at hr2
      exact h.occdisj ref1 r1 ref2 r2 hr1 hr2 hne

theorem inv_fill {t t' : ServerState} {rid ref : Nat} {room room' : ChatRoom}
    {user : User} (h : Inv t)
    (hrk : alookup rid t.roomKeys = some ref)
    (hst : alookup ref t.store = some room)
    (hq : t'.queue = t.queue)
    (hst' : t'.store = aupd ref room' t.store)
    (hrk' : t'.roomKeys = t.roomKeys)
    (hslots : room'.user1 = user ∧ room'.user2 = room.user2 ∨
      room'.user1 = room.user1 ∧ room'.user2 = user)
    (hu2r' : t'.userToRoom = aupd user.user_id rid t.userToRoom)
    (hact : room'.active = room.active)
    (hnoq : ∀ u ∈ t.queue, u.user_id ≠ user.user_id)
    (hnoocc : ∀ p ∈ t.store, user.user_id ≠ p.2.user1.user_id ∧
      user.user_id ≠ p.2.user2.user_id)
    (hf : t.fresh ≤ t'.fresh) (huf : user.user_id < t'.fresh) : Inv t' := by
  have hrefmem := alookup_mem hst
  refine ⟨?_, ?_, ?_, ?_, ?_, ?_, ?_, ?_, ?_, ?_⟩
  · rw [hq]
    intro u hu
    exact lt_of_lt_of_le (h.qbound u hu) hf
  · rw [hst']
    intro p hp
    rcases mem_aupd hp with hp | hp
    · subst hp
      exact lt_of_lt_of_le (h.storeKeyBound (ref, room) hrefmem) hf
    · exact lt_of_lt_of_le (h.storeKeyBound p hp) hf
  · rw [hst']
    intro p hp
    rcases mem_aupd hp with hp | hp
    · subst hp
      have hob := h.occBound (ref, room) hrefmem
      dsimp only at hob
      rcases hslots with ⟨e1, e2⟩ | ⟨e1, e2⟩ <;> dsimp only <;> rw [e1, e2] <;>
        exact ⟨by omega, by omega⟩
    · exact ⟨lt_of_lt_of_le (h.occBound p hp).1 hf,
        lt_of_lt_of_le (h.occBound p hp).2 hf⟩
  · rw [hrk']
    intro p hp
    exact lt_of_lt_of_le (h.rkBound p hp) hf
  · rw [hu2r']
    intro p hp
    rcases mem_aupd hp with hp | hp
    · subst hp; exact huf
    · exact lt_of_lt_of_le (h.u2rKeyBound p hp) hf
  · rw [hst', hu2r', hrk']
    intro ref2 r2 hr2 hact2
    by_cases h2 : ref2 = ref
    · rw [h2, alookup_aupd_self] at hr2
      cases hr2
      have hroomact : room.active = true := by rw [← hact]; exact hact2
      obtain ⟨⟨k1, hk11, hk12⟩, ⟨k2, hk21, hk22⟩⟩ := h.main ref room hst hroomact
      have hno := hnoocc _ hrefmem
      rcases hslots with ⟨e1, e2⟩ | ⟨e1, e2⟩
      · constructor
        · rw [e1, h2]
          exact ⟨rid, alookup_aupd_self _ _ _, hrk⟩
        · rw [e2, h2]
          exact ⟨k2, by rw [alookup_aupd_ne _ _ (Ne.symm hno.2)]; exact hk21, hk22⟩
      · constructor
        · rw [e1, h2]
          exact ⟨k1, by rw [alookup_aupd_ne _ _ (Ne.symm hno.1)]; exact hk11, hk12⟩
        · rw [e2, h2]
          exact ⟨rid, alookup_aupd_self _ _ _, hrk⟩
    · rw [alookup_aupd_ne _ _ h2] at hr2
      obtain ⟨⟨k1, hk11, hk12⟩, ⟨k2, hk21, hk22⟩⟩ := h.main ref2 r2 hr2 hact2
      have hno := hnoocc _ (alookup_mem hr2)
      constructor
      · exact ⟨k1, by rw [alookup_aupd_ne _ _ (Ne.symm hno.1)]; exact hk11, hk12⟩
      · exact ⟨k2, by rw [alookup_aupd_ne _ _ (Ne.symm hno.2)]; exact hk21, hk22⟩
  · rw [hq]; exact h.qnodup
  · rw [hq, hu2r']
    intro u hu
    rw [alookup_aupd_ne _ _ (hnoq u hu)]
    exact h.qnoidx u hu
  · rw [hq, hst']
    intro u hu p hp
    rcases mem_aupd hp with hp | hp
    · subst hp
      have hqo := h.qnotocc u hu _ hrefmem
      rcases hslots with ⟨e1, e2⟩ | ⟨e1, e2⟩ <;> dsimp only <;> rw [e1, e2] <;>
        exact ⟨by first | exact hnoq u hu | exact hqo.1 | exact hqo.2,
          by first | exact hnoq u hu | exact hqo.1 | exact hqo.2⟩
    · exact h.qnotocc u hu p hp
  · rw [hst']
    intro ref1 r1 ref2 r2 hr1 hr2 hne
    by_cases h1 : ref1 = ref <;> by_cases h2 : ref2 = ref
    · exact absurd (h1.trans h2.symm) hne
    · rw [h1, alookup_aupd_self] at hr1
      cases hr1
      rw [alookup_aupd_ne _ _ h2] at hr2
      have hno := hnoocc _ (alookup_mem hr2)
      have hdj := h.occdisj ref room ref2 r2 hst hr2 (h1 ▸ hne)
      rcases hslots with ⟨e1, e2⟩ | ⟨e1, e2⟩ <;> rw [e1, e2]
      · exact ⟨hno.1, hno.2, hdj.2.2.1, hdj.2.2.2⟩
      · exact ⟨hdj.1, hdj.2.1, hno.1, hno.2⟩
    · rw [h2, alookup_aupd_self] at hr2
      cases hr2
      rw [alookup_aupd_ne _ _ h1] at hr1
      have hno := hnoocc _ (alookup_mem hr1)
      have hdj := h.occdisj ref1 r1 ref room hr1 hst (h2 ▸ hne)
      rcases hslots with ⟨e1, e2⟩ | ⟨e1, e2⟩ <;> rw [e1, e2]
      · exact ⟨Ne.symm hno.1, hdj.2.1, Ne.symm hno.2, hdj.2.2.2⟩
      · exact ⟨hdj.1, Ne.symm hno.1, hdj.2.2.1, Ne.symm hno.2⟩
    · rw [alookup_aupd_ne _ _ h1] at hr1
      rw [alookup_aupd_ne _ _ h2] at hr2
      exact h.occdisj ref1 r1 ref2 r2 hr1 hr2 hne

theorem inv_wreg (rid client : Nat) {s : ServerState} (h : Inv s) :
    Inv (wait_register rid client s).2 := by
  rcases hc : alookup client s.connections with _ | user
  · simpa only [wait_register, hc] using h
  rcases hg : getRoom rid s with _ | room
  · simpa only [wait_register, hc, hg] using h
  by_cases ha : room.active = false
  · simpa only [wait_register, hc, hg, ha, if_true] using h
  by_cases hm : room.has_user user.user_id = false
  · simpa only [wait_register, hc, hg, ha, hm, if_true, if_false] using h
  simp only [wait_register, hc, hg, ha, hm, if_false]
  exact h.replace (le_refl _) rfl rfl rfl rfl

theorem inv_wfin (rid uid : Nat) (c : Bool) {s : ServerState} (h : Inv s) :
    Inv (wait_finish rid uid c s).2 := by
  rcases hq : alookup rid s.mq with _ | chans
  · simpa only [wait_finish, hq] using h
  rcases hu : alookup uid chans with _ | ch
  · simpa only [wait_finish, hq, hu] using h
  simp only [wait_finish, hq, hu]
  by_cases he : (aerase uid chans).isEmpty <;>
    simp only [he, if_true, if_false] <;>
    exact h.replace (le_refl _) rfl rfl rfl rfl

theorem frame_joinNotify (rid pu : Nat) (un : String) (s : ServerState) :
    s.fresh ≤ (joinNotify rid pu un s).fresh ∧
    (joinNotify rid pu un s).queue = s.queue ∧
    (joinNotify rid pu un s).store = s.store ∧
    (joinNotify rid pu un s).roomKeys = s.roomKeys ∧
    (joinNotify rid pu un s).userToRoom = s.userToRoom := by
  by_cases hc : (alookup pu s.connections).isSome
  · simp only [joinNotify, hc, if_true]
    rcases hm : alookup rid s.mq with _ | chans
    · simp [hm]
    simp only [hm]
    rcases hch : alookup pu chans with _ | ch
    · simp [hch]
    simp [hch, Nat.le_succ]
  · simp [joinNotify, hc]

theorem inv_join (rid : Nat) (dn : String) {s : ServerState} (h : Inv s) :
    Inv (join_room rid dn s).2 := by
  have hsF : s.fresh ≤ max s.fresh (rid + 1) := le_max_left _ _
  have hridF : rid < max s.fresh (rid + 1) :=
    lt_of_lt_of_le (Nat.lt_succ_self rid) (le_max_right _ _)
  have h1 : Inv { s with
      fresh := max s.fresh (rid + 1) + 2
      connections := aupd (max s.fresh (rid + 1))
        ⟨max s.fresh (rid + 1) + 1, some dn, max s.fresh (rid + 1)⟩
        s.connections } :=
    h.replace (by dsimp only; omega) rfl rfl rfl rfl
  have hqb : ∀ uu ∈ s.queue, uu.user_id ≠ max s.fresh (rid + 1) + 1 := by
    intro uu huu e
    have := h.qbound uu huu
    omega
  have hocc : ∀ p ∈ s.store,
      max s.fresh (rid + 1) + 1 ≠ p.2.user1.user_id ∧
      max s.fresh (rid + 1) + 1 ≠ p.2.user2.user_id := by
    intro p hp
    have := h.occBound p hp
    constructor <;> omega
  have huf2 : max s.fresh (rid + 1) + 1 < max s.fresh (rid + 1) + 2 := by omega
  have huf3 : max s.fresh (rid + 1) + 1 < max s.fresh (rid + 1) + 3 := by omega
  have hrid2 : rid < max s.fresh (rid + 1) + 2 := by omega
  rcases hkey : alookup rid s.roomKeys with _ | ref
  · simp only [join_room, hkey]
    refine inv_joinCreate h1 rid _ _ hqb hocc huf2 hrid2 ?_
    simp [getRoom, hkey]
  rcases hst : alookup ref s.store with _ | room
  · simp only [join_room, hkey, hst]
    refine inv_joinCreate h1 rid _ _ hqb hocc huf2 hrid2 ?_
    simp [getRoom, hkey, hst]
  rcases hact : room.active with _ | _
  · simpa only [join_room, hkey, hst, hact, if_true] using h1
  simp only [join_room, hkey, hst, hact, Bool.true_eq_false, if_false]
  by_cases hfull : 2 ≤ joinCount room
      (aupd (max s.fresh (rid + 1))
        ⟨max s.fresh (rid + 1) + 1, some dn, max s.fresh (rid + 1)⟩
        s.connections)
  · rw [if_pos hfull]
    exact h1
  rw [if_neg hfull]
  by_cases hzero : joinCount room
      (aupd (max s.fresh (rid + 1))
        ⟨max s.fresh (rid + 1) + 1, some dn, max s.fresh (rid + 1)⟩
        s.connections) = 0
  · rw [if_pos hzero]
    exact inv_fill h1 hkey hst rfl rfl rfl (Or.inl ⟨rfl, rfl⟩) rfl hact.symm
      hqb hocc (le_refl _) huf2
  rw [if_neg hzero]
  have hfr := frame_joinNotify rid room.user1.user_id
    (User.name ⟨max s.fresh (rid + 1) + 1, some dn, max s.fresh (rid + 1)⟩)
    { s with
        fresh := max s.fresh (rid + 1) + 2
        connections := aupd (max s.fresh (rid + 1))
          ⟨max s.fresh (rid + 1) + 1, some dn, max s.fresh (rid + 1)⟩
          s.connections
        store := aupd ref
          ⟨room.room_id, room.user1,
           ⟨max s.fresh (rid + 1) + 1, some dn, max s.fresh (rid + 1)⟩, true⟩
          s.store }
  exact inv_fill h1 hkey hst hfr.2.1 hfr.2.2.1 hfr.2.2.2.1
    (Or.inr ⟨rfl, rfl⟩) (by rw [hfr.2.2.2.2]) hact.symm hqb hocc
    hfr.1 (lt_of_lt_of_le huf2 hfr.1)

/-- Every operation of the step machine preserves the invariant, so it
holds in every reachable state. -/
theorem inv_reachable {s : ServerState} (h : Reachable s) : Inv s := by
  induction h with
  | init => exact inv_init
  | step o hs ih =>
    cases o with
    | enterAdd dn => exact inv_enter_add dn ih
    | enterMatch => exact inv_enter_match ih
    | join rid dn => exact inv_join rid dn ih
    | send rid text client => exact inv_send rid text client ih
    | leave rid client => exact inv_leave rid client ih
    | wreg rid client => exact inv_wreg rid client ih
    | wfin rid uid c => exact inv_wfin rid uid c ih
    | disc cid => exact inv_disc cid ih

/-! ## Further helper lemmas for the claim theorems -/

theorem aerase_comm {α : Type} (a b : Nat) (l : List (Nat × α)) :
    aerase a (aerase b l) = aerase b (aerase a l) := by
  induction l with
  | nil => rfl
  | cons p rest ih =>
    by_cases hpa : p.1 = a
    · subst hpa
      by_cases hpb : p.1 = b
      · subst hpb; rfl
      · simp [aerase, hpb, ih]
    · by_cases hpb : p.1 = b
      · subst hpb
        simp [aerase, hpa, ih]
      · simp [aerase, hpa, hpb, ih]

theorem aupd_self_eq {α : Type} {k : Nat} {v : α} {l : List (Nat × α)}
    (h : alookup k l = some v) : aupd k v l = l := by
  induction l with
  | nil => simp [alookup] at h
  | cons p rest ih =>
    by_cases hp : p.1 = k
    · have hv : p.2 = v := by simpa [alookup, hp] using h
      subst hp
      simp [aupd, ← hv]
    · simp only [alookup, if_neg hp] at h
      simp [aupd, hp, ih h]

theorem alookup_none_forall {α : Type} {k : Nat} {l : List (Nat × α)}
    (h : alookup k l = none) : ∀ p ∈ l, p.1 ≠ k := by
  induction l with
  | nil => intro p hp; cases hp
  | cons p rest ih =>
    by_cases hp : p.1 = k
    · simp [alookup, hp] at h
    · intro q hq
      rcases List.mem_cons.1 hq with hq | hq
      · subst hq; exact hp
      · exact ih (by simpa [alookup, hp] using h) q hq

theorem map_id_of_fix {α : Type} {f : α → α} {l : List α}
    (h : ∀ x ∈ l, f x = x) : l.map f = l := by
  induction l with
  | nil => rfl
  | cons x rest ih =>
    simp [h x (by simp), ih fun y hy => h y (List.mem_cons_of_mem _ hy)]

/-- Effect of `send_message`'s delivery loop on a per-room registration
dict: the sender's entry is untouched, every other entry receives a
capacity-checked push. -/
theorem alookup_send_map (md : MsgData) (suid k : Nat)
    (chans : List (Nat × List MsgData)) :
    alookup k (chans.map fun p => if p.1 = suid then p else (p.1, qput p.2 md)) =
    match alookup k chans with
    | none => none
    | some ch => some (if k = suid then ch else qput ch md) := by
  induction chans with
  | nil => simp [alookup]
  | cons p rest ih =>
    by_cases hpk : p.1 = k
    · subst hpk
      by_cases hps : p.1 = suid
      · subst hps
        simp [alookup]
      · simp [alookup, hps]
    · by_cases hps : p.1 = suid
      · subst hps
        simp [alookup, hpk, Ne.symm hpk, ih]
      · simp [alookup, hpk, hps, ih]

theorem get_partner_of_has_user {r : ChatRoom} {uid : Nat}
    (h : r.has_user uid = true) : ∃ p, r.get_partner uid = some p := by
  unfold ChatRoom.has_user at h
  unfold ChatRoom.get_partner
  by_cases h1 : r.user1.user_id = uid
  · exact ⟨r.user2, by simp [h1]⟩
  · by_cases h2 : r.user2.user_id = uid
    · exact ⟨r.user1, by simp [h1, h2]⟩
    · simp only [Bool.or_eq_true, beq_iff_eq] at h
      rcases h with h | h
      · exact absurd h.symm h1
      · exact absurd h.symm h2

/-- The success condition shared by `send_message` and
`wait_for_message`: the handle resolves to a known user, the room
exists and is active, and the user is one of its two occupants. -/
def SendOkCond (s : ServerState) (rid client : Nat) : Prop :=
  ∃ u r, alookup client s.connections = some u ∧ getRoom rid s = some r ∧
    r.active = true ∧ r.has_user u.user_id = true

/-- A `send_message` result counts as success exactly when it carries a
message id. -/
def isSendOk : SendResult → Prop
  | .ok _ => True
  | .serr _ => False

/-- A `wait_for_message` result counts as success when it is a message
or the distinguished timeout outcome (not a structured error). -/
def isWaitSuccess : WaitResult → Prop
  | .msg _ _ _ => True
  | .wtimeout => True
  | .wcancelled => False
  | .werr _ => False

theorem wait_finish_success (rid uid : Nat) (s : ServerState) :
    isWaitSuccess (wait_finish rid uid false s).1 := by
  rcases hq : alookup rid s.mq with _ | chans
  · simp [wait_finish, hq, isWaitSuccess]
  rcases hu : alookup uid chans with _ | ch
  · simp [wait_finish, hq, hu, isWaitSuccess]
  rcases ch with _ | ⟨m, rest⟩ <;> simp [wait_finish, hq, hu, isWaitSuccess]

theorem wait_finish_no_err (rid uid : Nat) (c : Bool) (s : ServerState)
    (e : String) : (wait_finish rid uid c s).1 ≠ .werr e := by
  rcases hq : alookup rid s.mq with _ | chans
  · cases c <;> simp [wait_finish, hq]
  rcases hu : alookup uid chans with _ | ch
  · cases c <;> simp [wait_finish, hq, hu]
  cases c <;> rcases ch with _ | ⟨m, rest⟩ <;> simp [wait_finish, hq, hu]

theorem wait_finish_clears (rid uid : Nat) (c : Bool) (s : ServerState) :
    mqGet rid uid (wait_finish rid uid c s).2 = none := by
  rcases hq : alookup rid s.mq with _ | chans
  · simp [wait_finish, hq, mqGet]
  rcases hu : alookup uid chans with _ | ch
  · simp [wait_finish, hq, hu, mqGet, hq]
  simp only [wait_finish, hq, hu]
  by_cases he : (aerase uid chans).isEmpty
  · simp [he, mqGet, alookup_aerase]
  · simp [he, mqGet, alookup_aupd_self, alookup_aerase]

/-- Witness state: room 4 is active with occupants 1 (client handle 0)
and 3 (client handle 2); user 1 holds an empty mailbox registration. -/
def wState : ServerState :=
  ⟨6, [(0, ⟨1, none, 0⟩), (2, ⟨3, none, 2⟩)], [],
   [(4, ⟨4, ⟨1, none, 0⟩, ⟨3, none, 2⟩, true⟩)], [(4, 4)], [(1, 4), (3, 4)],
   [(4, [(1, [])])]⟩

/-! ## Claim theorems -/

/-- C5: `pop_pair` on a queue of at least two entries removes and
returns exactly the two entries with the smallest enqueue indices, in
arrival order, skipping none; on a shorter queue it returns `none` and
leaves the queue unchanged.  The queue is modelled as the list of
entries tagged with strictly increasing enqueue indices. -/
theorem c5_pop_pair_fifo (q : List (Nat × User))
    (hs : (q.map Prod.fst).Sorted (· < ·)) :
    (2 ≤ q.length →
      ∃ e1 e2 rest, popPairQ q = (some (e1, e2), rest) ∧
        q = e1 :: e2 :: rest ∧ e1.1 < e2.1 ∧
        ∀ e ∈ rest, e1.1 < e.1 ∧ e2.1 < e.1) ∧
    (q.length < 2 → popPairQ q = (none, q)) := by
  rcases q with _ | ⟨a, _ | ⟨b, t⟩⟩
  · exact ⟨fun h => absurd h (by decide), fun _ => rfl⟩
  · exact ⟨fun h => absurd h (by simp), fun _ => rfl⟩
  · constructor
    · intro _
      simp only [List.map_cons, List.Sorted, List.pairwise_cons] at hs
      refine ⟨a, b, t, rfl, rfl, ?_, ?_⟩
      · exact hs.1 b.1 (List.mem_cons_self _ _)
      · intro e he
        exact ⟨hs.1 e.1 (List.mem_cons_of_mem _ (List.mem_map.2 ⟨e, he, rfl⟩)),
          hs.2.1 e.1 (List.mem_map.2 ⟨e, he, rfl⟩)⟩
    · intro h
      exact absurd h (by simp)

/-- Witness for C5 at concrete queues: three sorted entries pop the two
oldest in order; a single entry pops nothing and keeps the queue. -/
theorem c5_pop_pair_fifo_witness :
    (∃ e1 e2 rest,
      popPairQ [(0, (⟨10, none, 0⟩ : User)), (1, ⟨11, none, 1⟩), (2, ⟨12, none, 2⟩)] =
        (some (e1, e2), rest) ∧
      [(0, (⟨10, none, 0⟩ : User)), (1, ⟨11, none, 1⟩), (2, ⟨12, none, 2⟩)] =
        e1 :: e2 :: rest ∧ e1.1 < e2.1 ∧ ∀ e ∈ rest, e1.1 < e.1 ∧ e2.1 < e.1) ∧
    popPairQ [(7, (⟨13, none, 7⟩ : User))] = (none, [(7, ⟨13, none, 7⟩)]) := by
  constructor
  · exact (c5_pop_pair_fifo _ (by decide)).1 (by decide)
  · exact (c5_pop_pair_fifo _ (by decide)).2 (by decide)

/-- C9: `wait_for_message` clamps the caller-supplied timeout with
`min(·, 300)` then `max(·, 1)`: values below 1 are raised to 1, values
above 300 lowered to 300, and values in `[1, 300]` pass unchanged. -/
theorem c9_timeout_clamp (t : Int) :
    (t < 1 → clampTimeout t = 1) ∧
    (300 < t → clampTimeout t = 300) ∧
    (1 ≤ t → t ≤ 300 → clampTimeout t = t) := by
  unfold clampTimeout
  refine ⟨fun h => ?_, fun h => ?_, fun h h' => ?_⟩ <;> omega

/-- Witness for C9 at the three regimes of the clamp. -/
theorem c9_timeout_clamp_witness :
    clampTimeout 0 = 1 ∧ clampTimeout (-5) = 1 ∧
    clampTimeout 400 = 300 ∧ clampTimeout 60 = 60 :=
  ⟨(c9_timeout_clamp 0).1 (by decide), (c9_timeout_clamp (-5)).1 (by decide),
   (c9_timeout_clamp 400).2.1 (by decide),
   (c9_timeout_clamp 60).2.2 (by decide) (by decide)⟩

/-- C8: `close_room` is idempotent — closing an already-closed room is a
no-op returning the same room record with `active = false`, and closing
an unknown room id returns `none` rather than an error. -/
theorem c8_close_room_idem (s : ServerState) (rid : Nat) :
    (closeRoom rid (closeRoom rid s).2).1 = (closeRoom rid s).1 ∧
    (closeRoom rid (closeRoom rid s).2).2 = (closeRoom rid s).2 ∧
    (∀ r, (closeRoom rid s).1 = some r → r.active = false) ∧
    (getRoom rid s = none → (closeRoom rid s).1 = none) := by
  rcases hrk : alookup rid s.roomKeys with _ | ref
  · simp [closeRoom, hrk]
  rcases hst : alookup ref s.store with _ | room
  · simp [closeRoom, hrk, hst, getRoom]
  refine ⟨?_, ?_, ?_, ?_⟩
  · simp [closeRoom, hrk, hst, alookup_aupd_self]
  · simp only [closeRoom, hrk, hst, alookup_aupd_self]
    rw [aupd_aupd_same]
    have hcomm : aerase room.user2.user_id
        (aerase room.user1.user_id
          (aerase room.user2.user_id (aerase room.user1.user_id s.userToRoom))) =
        aerase room.user2.user_id (aerase room.user1.user_id s.userToRoom) := by
      rw [aerase_comm room.user1.user_id room.user2.user_id
        (aerase room.user1.user_id s.userToRoom),
        aerase_aerase_same, aerase_aerase_same]
    simp [hcomm]
  · intro r hr
    simp only [closeRoom, hrk, hst] at hr
    cases hr
    rfl
  · intro hg
    rw [getRoom, hrk] at hg
    simp only [Option.bind] at hg
    rw [hst] at hg
    cases hg

/-- Witness for C8: a concrete double close returns the closed record
twice with an unchanged state, and closing an unknown id yields `none`. -/
theorem c8_close_room_idem_witness :
    (closeRoom 4
      (closeRoom 4
        (⟨5, [], [], [(4, ⟨4, ⟨1, none, 0⟩, ⟨3, none, 2⟩, true⟩)], [(4, 4)],
          [(1, 4), (3, 4)], []⟩ : ServerState)).2).1 =
      (closeRoom 4
        (⟨5, [], [], [(4, ⟨4, ⟨1, none, 0⟩, ⟨3, none, 2⟩, true⟩)], [(4, 4)],
          [(1, 4), (3, 4)], []⟩ : ServerState)).1 ∧
    (⟨4, ⟨1, none, 0⟩, ⟨3, none, 2⟩, false⟩ : ChatRoom).active = false ∧
    (closeRoom 9 initState).1 = none := by
  refine ⟨(c8_close_room_idem _ 4).1, ?_, ?_⟩
  · exact (c8_close_room_idem
      (⟨5, [], [], [(4, ⟨4, ⟨1, none, 0⟩, ⟨3, none, 2⟩, true⟩)], [(4, 4)],
        [(1, 4), (3, 4)], []⟩ : ServerState) 4).2.2.1
      ⟨4, ⟨1, none, 0⟩, ⟨3, none, 2⟩, false⟩ (by decide)
  · exact (c8_close_room_idem initState 9).2.2.2 (by decide)

/-- C3: `send_message` and `wait_for_message` return a success result if
and only if the handle resolves to a known user who is one of the
room's two current occupants and the room exists and is active; in
every other case they return a structured error result. -/
theorem c3_membership_iff (s : ServerState) (rid : Nat) (text : String)
    (client : Nat) (t : Int) (arrivals : List MsgData) :
    (isSendOk (send_message rid text client s).1 ↔ SendOkCond s rid client) ∧
    (isWaitSuccess (wait_for_message rid client t arrivals false s).1 ↔
      SendOkCond s rid client) ∧
    (¬ SendOkCond s rid client →
      (∃ e, (send_message rid text client s).1 = .serr e) ∧
      (∃ e, (wait_for_message rid client t arrivals false s).1 = .werr e)) := by
  rcases hc : alookup client s.connections with _ | u
  · have hnc : ¬ SendOkCond s rid client := by
      rintro ⟨u', r', hc', -, -, -⟩
      rw [hc] at hc'
      cases hc'
    simp only [send_message, wait_for_message, wait_register, hc]
    exact ⟨by simp [isSendOk, hnc], by simp [isWaitSuccess, hnc],
      fun _ => ⟨⟨_, rfl⟩, ⟨_, rfl⟩⟩⟩
  rcases hg : getRoom rid s with _ | r
  · have hnc : ¬ SendOkCond s rid client := by
      rintro ⟨u', r', hc', hg', -, -⟩
      rw [hc] at hc'
      cases hc'
      rw [hg] at hg'
      cases hg'
    simp only [send_message, wait_for_message, wait_register, hc, hg]
    exact ⟨by simp [isSendOk, hnc], by simp [isWaitSuccess, hnc],
      fun _ => ⟨⟨_, rfl⟩, ⟨_, rfl⟩⟩⟩
  rcases ha : r.active with _ | _
  · have hnc : ¬ SendOkCond s rid client := by
      rintro ⟨u', r', hc', hg', ha', -⟩
      rw [hc] at hc'
      cases hc'
      rw [hg] at hg'
      cases hg'
      rw [ha] at ha'
      cases ha'
    simp only [send_message, wait_for_message, wait_register, hc, hg, ha,
      if_true]
    exact ⟨by simp [isSendOk, hnc], by simp [isWaitSuccess, hnc],
      fun _ => ⟨⟨_, rfl⟩, ⟨_, rfl⟩⟩⟩
  rcases hm : r.has_user u.user_id with _ | _
  · have hnc : ¬ SendOkCond s rid client := by
      rintro ⟨u', r', hc', hg', -, hm'⟩
      rw [hc] at hc'
      cases hc'
      rw [hg] at hg'
      cases hg'
      rw [hm] at hm'
      cases hm'
    simp only [send_message, wait_for_message, wait_register, hc, hg, ha,
      Bool.true_eq_false, if_false, hm, if_true]
    exact ⟨by simp [isSendOk, hnc], by simp [isWaitSuccess, hnc],
      fun _ => ⟨⟨_, rfl⟩, ⟨_, rfl⟩⟩⟩
  · have hcond : SendOkCond s rid client := ⟨u, r, hc, hg, ha, hm⟩
    obtain ⟨p, hp⟩ := get_partner_of_has_user hm
    refine ⟨?_, ?_, fun hn => absurd hcond hn⟩
    · rcases hq2 : alookup rid s.mq with _ | chans <;>
        simp [send_message, hc, hg, ha, Bool.true_eq_false, hm, hp, hq2,
          isSendOk, hcond]
    · simp only [wait_for_message, wait_register, hc, hg, ha,
        Bool.true_eq_false, if_false, hm]
      exact iff_of_true (wait_finish_success _ _ _) hcond

/-- Witness for C3: a member of an active room gets success from both
operations; on the empty server both operations return errors. -/
theorem c3_membership_iff_witness :
    isSendOk (send_message 4 "hi" 2 wState).1 ∧
    isWaitSuccess (wait_for_message 4 2 5 [] false wState).1 ∧
    (∃ e, (send_message 9 "hi" 7 initState).1 = .serr e) ∧
    (∃ e, (wait_for_message 9 7 5 [] false initState).1 = .werr e) := by
  have hcond : SendOkCond wState 4 2 :=
    ⟨⟨3, none, 2⟩, ⟨4, ⟨1, none, 0⟩, ⟨3, none, 2⟩, true⟩, by decide, by decide,
      rfl, by decide⟩
  have hncond : ¬ SendOkCond initState 9 7 := by
    rintro ⟨u', r', hc', -, -, -⟩
    cases hc'
  exact ⟨(c3_membership_iff wState 4 "hi" 2 5 []).1.mpr hcond,
    (c3_membership_iff wState 4 "hi" 2 5 []).2.1.mpr hcond,
    ((c3_membership_iff initState 9 "hi" 7 5 []).2.2 hncond).1,
    ((c3_membership_iff initState 9 "hi" 7 5 []).2.2 hncond).2⟩

/-- C7: by the time `wait_for_message` returns, the registration it
created is gone — on message receipt, timeout and cancellation the
`(room id, user id)` key is absent from the registry, and a call that
fails validation (returning a structured error) leaves the whole state
untouched, having registered nothing. -/
theorem c7_wait_cleanup (s : ServerState) (rid client : Nat) (t : Int)
    (arrivals : List MsgData) (c : Bool) :
    (alookup client s.connections = none →
      (wait_for_message rid client t arrivals c s).2 = s) ∧
    (∀ u, alookup client s.connections = some u →
      ((∃ e, (wait_for_message rid client t arrivals c s).1 = .werr e) →
        (wait_for_message rid client t arrivals c s).2 = s) ∧
      ((∀ e, (wait_for_message rid client t arrivals c s).1 ≠ .werr e) →
        mqGet rid u.user_id (wait_for_message rid client t arrivals c s).2 =
          none)) := by
  constructor
  · intro hc
    simp [wait_for_message, wait_register, hc]
  intro u hc
  rcases hg : getRoom rid s with _ | r
  · constructor
    · intro _
      simp [wait_for_message, wait_register, hc, hg]
    · intro hne
      exact absurd (by simp [wait_for_message, wait_register, hc, hg] :
        (wait_for_message rid client t arrivals c s).1 = .werr "Room not found")
        (hne _)
  rcases ha : r.active with _ | _
  · constructor
    · intro _
      simp [wait_for_message, wait_register, hc, hg, ha]
    · intro hne
      exact absurd (by simp [wait_for_message, wait_register, hc, hg, ha] :
        (wait_for_message rid client t arrivals c s).1 = .werr "Chat has ended")
        (hne _)
  rcases hm : r.has_user u.user_id with _ | _
  · constructor
    · intro _
      simp [wait_for_message, wait_register, hc, hg, ha, hm,
        Bool.true_eq_false]
    · intro hne
      exact absurd
        (by simp [wait_for_message, wait_register, hc, hg, ha, hm,
            Bool.true_eq_false] :
          (wait_for_message rid client t arrivals c s).1 =
            .werr "You are not in this room")
        (hne _)
  · constructor
    · rintro ⟨e, he⟩
      simp only [wait_for_message, wait_register, hc, hg, ha,
        Bool.true_eq_false, if_false, hm] at he
      exact absurd he (wait_finish_no_err _ _ _ _ _)
    · intro _
      simp only [wait_for_message, wait_register, hc, hg, ha,
        Bool.true_eq_false, if_false, hm]
      exact wait_finish_clears _ _ _ _

/-- Witness for C7: a timing-out wait leaves no registration behind,
and a failing call on the empty server leaves the state unchanged. -/
theorem c7_wait_cleanup_witness :
    mqGet 4 3 (wait_for_message 4 2 5 [] false wState).2 = none ∧
    (wait_for_message 9 7 5 [] false initState).2 = initState := by
  constructor
  · refine ((c7_wait_cleanup wState 4 2 5 [] false).2 ⟨3, none, 2⟩
      (by decide)).2 ?_
    intro e he
    have hres : (wait_for_message 4 2 5 [] false wState).1 = .wtimeout := by
      decide
    rw [hres] at he
    cases he
  · exact (c7_wait_cleanup initState 9 7 5 [] false).1 (by decide)

/-- C10: `send_message` never delivers into the sender's own mailbox
registration — the channel registered under the sender's own
`(room id, user id)` key is left with unchanged contents. -/
theorem c10_no_self_delivery (s : ServerState) (rid : Nat) (text : String)
    (client : Nat) (u : User) (ch : List MsgData)
    (hc : alookup client s.connections = some u)
    (hreg : mqGet rid u.user_id s = some ch) :
    mqGet rid u.user_id (send_message rid text client s).2 = some ch := by
  obtain ⟨chans, hrm, huc⟩ : ∃ chans, alookup rid s.mq = some chans ∧
      alookup u.user_id chans = some ch := by
    rcases hq : alookup rid s.mq with _ | chans
    · rw [mqGet, hq] at hreg
      cases hreg
    · refine ⟨chans, rfl, ?_⟩
      rw [mqGet, hq] at hreg
      simpa using hreg
  rcases hg : getRoom rid s with _ | r
  · simp [send_message, hc, hg, mqGet, hrm, huc]
  rcases ha : r.active with _ | _
  · simp [send_message, hc, hg, ha, mqGet, hrm, huc]
  rcases hm : r.has_user u.user_id with _ | _
  · simp [send_message, hc, hg, ha, hm, Bool.true_eq_false, mqGet, hrm, huc]
  obtain ⟨p, hp⟩ := get_partner_of_has_user hm
  simp only [send_message, hc, hg, ha, hm, Bool.true_eq_false, if_false, hp,
    hrm]
  rw [mqGet]
  dsimp only
  rw [alookup_aupd_self]
  simp only [Option.some_bind]
  rw [alookup_send_map, huc]
  simp

/-- Witness for C10: a sender with an empty live registration keeps it
empty across a successful send. -/
theorem c10_no_self_delivery_witness :
    mqGet 4 1 (send_message 4 "boo" 0 wState).2 = some [] :=
  c10_no_self_delivery wState 4 "boo" 0 ⟨1, none, 0⟩ [] (by decide) (by decide)

/-- Reachable state with a properly paired room: two `enter_queue`
calls (each two atomic phases) pair users 1 and 3 in room 4. -/
def pairState : ServerState :=
  applyOp .enterMatch (applyOp (.enterAdd none)
    (applyOp .enterMatch (applyOp (.enterAdd none) initState)))

/-- C2 counterexample: the claim requires the two slots of every active
room to hold distinct user ids, but one reachable `join_room` step on
an unknown room id creates an active room whose two slots alias the
same user. -/
theorem c2_counterexample :
    Reachable (applyOp (.join 50 "alice") initState) ∧
    (getRoom 50 (applyOp (.join 50 "alice") initState)).map
      (fun r => (r.active, r.user1.user_id == r.user2.user_id)) =
      some (true, true) :=
  ⟨Reachable.step _ Reachable.init, by decide⟩

/-- C2 (amended): in every reachable state, every room record whose
active flag is true has both user slots populated with user ids that
each map back to that room through the user→room index and the room-id
table; the two slots are not always distinct — the direct `join_room`
path creates an active single-occupant room whose slots alias one
user until a second occupant joins. -/
theorem c2_active_room_indexed (s : ServerState) (hr : Reachable s) :
    ∀ ref r, alookup ref s.store = some r → r.active = true →
      (∃ k, alookup r.user1.user_id s.userToRoom = some k ∧
        alookup k s.roomKeys = some ref) ∧
      (∃ k, alookup r.user2.user_id s.userToRoom = some k ∧
        alookup k s.roomKeys = some ref) :=
  (inv_reachable hr).main

/-- Witness for C2 at the concrete paired room: both occupants of room
4 are indexed back to it. -/
theorem c2_active_room_indexed_witness :
    (∃ k, alookup 1 pairState.userToRoom = some k ∧
      alookup k pairState.roomKeys = some 4) ∧
    (∃ k, alookup 3 pairState.userToRoom = some k ∧
      alookup k pairState.roomKeys = some 4) :=
  c2_active_room_indexed pairState
    (Reachable.step _ (Reachable.step _ (Reachable.step _
      (Reachable.step _ Reachable.init))))
    4 ⟨4, ⟨1, none, 0⟩, ⟨3, none, 2⟩, true⟩ (by decide) rfl

/-- C1 counterexample: with two users already waiting (an interleaving
the concurrent server permits, since enqueue and pair-popping are
separate atomic sections), a third `enter_queue` call returns
`matched` naming room 6 — but room 6 holds users 1 and 3, while the
caller (resolved from the returned client id 4) has user id 5, so the
caller is not an occupant of the returned room. -/
theorem c1_counterexample :
    Reachable (enter_add none (enter_add none initState)) ∧
    (enter_queue none (enter_add none (enter_add none initState))).1 =
      .matched 6 1 "Anonymous-1" 4 ∧
    (alookup 4 (enter_queue none
        (enter_add none (enter_add none initState))).2.connections).map
      User.user_id = some 5 ∧
    getRoom 6 (enter_queue none (enter_add none (enter_add none initState))).2 =
      some ⟨6, ⟨1, none, 0⟩, ⟨3, none, 2⟩, true⟩ ∧
    (5 : Nat) ≠ 1 ∧ (5 : Nat) ≠ 3 :=
  ⟨Reachable.step (.enterAdd none) (Reachable.step (.enterAdd none)
    Reachable.init), by decide⟩

/-- C1 (amended): provided at most one user is waiting when the call
arrives, an `enter_queue` call that returns `matched` places the caller
as `user2` of the returned room, and the reported partner is `user1`,
the other occupant, with a distinct user id. -/
theorem c1_matched_caller (s : ServerState) (dn : Option String)
    (hb : ∀ u ∈ s.queue, u.user_id < s.fresh) (hlen : s.queue.length ≤ 1) :
    ∀ rid pid pname cid s',
      enter_queue dn s = (.matched rid pid pname cid, s') →
      ∃ r, getRoom rid s' = some r ∧
        (alookup cid s'.connections).map User.user_id =
          some r.user2.user_id ∧
        pid = r.user1.user_id ∧ pname = r.user1.name ∧
        r.user1.user_id ≠ r.user2.user_id := by
  intro rid pid pname cid s' heq
  rcases hq : s.queue with _ | ⟨x, rest⟩
  · simp [enter_queue, enter_add, hq, popPairQ, Prod.mk.injEq] at heq
  rcases rest with _ | ⟨y, rest2⟩
  · have hxF : x.user_id < s.fresh := hb x (by rw [hq]; exact List.mem_cons_self _ _)
    have hne : ¬(s.fresh + 1 = x.user_id) := by omega
    simp only [enter_queue, enter_add, hq, List.cons_append, List.nil_append,
      popPairQ, createRoom, hne, if_false, Prod.mk.injEq,
      EnterResult.matched.injEq] at heq
    obtain ⟨⟨hrid, hpid, hpname, hcid⟩, hs'⟩ := heq
    subst hrid
    subst hpid
    subst hpname
    subst hcid
    subst hs'
    refine ⟨⟨s.fresh + 2, x, ⟨s.fresh + 1, dn, s.fresh⟩, true⟩, ?_, ?_, rfl,
      rfl, ?_⟩
    · simp [getRoom, alookup_aupd_self]
    · simp [alookup_aupd_self]
    · dsimp only
      omega
  · rw [hq] at hlen
    simp at hlen

/-- Witness for C1: one user waiting, a second enters and is matched as
`user2` of room 7 with the waiting user 1 as partner. -/
theorem c1_matched_caller_witness :
    getRoom 7 (enter_queue none
      (⟨5, [(0, ⟨1, none, 0⟩)], [⟨1, none, 0⟩], [], [], [], []⟩ : ServerState)).2 =
      some ⟨7, ⟨1, none, 0⟩, ⟨6, none, 5⟩, true⟩ ∧
    (alookup 5 (enter_queue none
      (⟨5, [(0, ⟨1, none, 0⟩)], [⟨1, none, 0⟩], [], [], [], []⟩ : ServerState)).2.connections).map
      User.user_id = some 6 ∧
    (1 : Nat) ≠ 6 := by
  obtain ⟨r, h1, h2, h3, h4, h5⟩ :=
    c1_matched_caller
      (⟨5, [(0, ⟨1, none, 0⟩)], [⟨1, none, 0⟩], [], [], [], []⟩ : ServerState)
      none (by decide) (by decide) 7 1 "Anonymous-1" 5
      (enter_queue none
        (⟨5, [(0, ⟨1, none, 0⟩)], [⟨1, none, 0⟩], [], [], [], []⟩ : ServerState)).2
      (by decide)
  have hget : getRoom 7 (enter_queue none
      (⟨5, [(0, ⟨1, none, 0⟩)], [⟨1, none, 0⟩], [], [], [], []⟩ : ServerState)).2 =
      some ⟨7, ⟨1, none, 0⟩, ⟨6, none, 5⟩, true⟩ := by decide
  rw [hget] at h1
  have hr := Option.some.inj h1
  subst hr
  exact ⟨hget, h2, h5⟩

/-- State reached by pairing users 1 and 3 in room 4 and then having
user 1 (client 0) leave: room 4 still exists, inactive, with member 3
still holding a live session. -/
def leftState : ServerState := applyOp (.leave 4 0) pairState

/-- C4 counterexample: `leave_chat` against a room that is no longer
active (not in `PAIRED`) returns success, not a typed failure — the
handler never checks the `active` flag. -/
theorem c4_counterexample :
    Reachable leftState ∧
    (getRoom 4 leftState).map ChatRoom.active = some false ∧
    (getRoom 4 leftState).map (fun r => r.has_user 3) = some true ∧
    (alookup 2 leftState.connections).map User.user_id = some 3 ∧
    (leave_chat 4 2 leftState).1 = .ok :=
  ⟨Reachable.step _ (Reachable.step _ (Reachable.step _ (Reachable.step _
    (Reachable.step _ Reachable.init)))), by decide⟩

/-- C4 (amended): `send_message` and `wait_for_message` against an
unknown or inactive room return a typed recoverable failure, and
`leave_chat` does so for an unknown room; but `leave_chat` by a member
of an inactive room succeeds rather than failing. -/
theorem c4_nonpaired_failures (s : ServerState) (rid : Nat) (text : String)
    (client : Nat) (t : Int) (arrivals : List MsgData) :
    ((getRoom rid s = none ∨ ∃ r, getRoom rid s = some r ∧ r.active = false) →
      (∃ e, (send_message rid text client s).1 = .serr e) ∧
      (∃ e, (wait_for_message rid client t arrivals false s).1 = .werr e)) ∧
    (getRoom rid s = none → ∃ e, (leave_chat rid client s).1 = .lerr e) ∧
    (∀ u r, alookup client s.connections = some u → getRoom rid s = some r →
      r.active = false → r.has_user u.user_id = true →
      (leave_chat rid client s).1 = .ok) := by
  refine ⟨?_, ?_, ?_⟩
  · intro hroom
    rcases hc : alookup client s.connections with _ | u
    · constructor
      · exact ⟨"User not found. Invalid client_id: " ++ toString client,
          by simp [send_message, hc]⟩
      · exact ⟨"User not found. Invalid client_id: " ++ toString client,
          by simp [wait_for_message, wait_register, hc]⟩
    rcases hroom with hg | ⟨r, hg, har⟩
    · constructor
      · exact ⟨"Room not found", by simp [send_message, hc, hg]⟩
      · exact ⟨"Room not found",
          by simp [wait_for_message, wait_register, hc, hg]⟩
    · constructor
      · exact ⟨"Chat has ended", by simp [send_message, hc, hg, har]⟩
      · exact ⟨"Chat has ended",
          by simp [wait_for_message, wait_register, hc, hg, har]⟩
  · intro hg
    rcases hc : alookup client s.connections with _ | u
    · exact ⟨"User not found", by simp [leave_chat, hc]⟩
    · exact ⟨"Room not found", by simp [leave_chat, hc, hg]⟩
  · intro u r hc hg har hm
    simp [leave_chat, hc, hg, hm, Bool.true_eq_false]

/-- Witness for C4: send and wait against the closed room 4 fail, a
leave against an unknown room fails, and a member's leave against the
closed room succeeds. -/
theorem c4_nonpaired_failures_witness :
    (∃ e, (send_message 4 "hi" 2 leftState).1 = .serr e) ∧
    (∃ e, (wait_for_message 4 2 5 [] false leftState).1 = .werr e) ∧
    (∃ e, (leave_chat 9 0 wState).1 = .lerr e) ∧
    (leave_chat 4 2 leftState).1 = .ok := by
  have h1 := (c4_nonpaired_failures leftState 4 "hi" 2 5 []).1
    (Or.inr ⟨⟨4, ⟨1, none, 0⟩, ⟨3, none, 2⟩, false⟩, by decide, rfl⟩)
  refine ⟨h1.1, h1.2, ?_, ?_⟩
  · exact (c4_nonpaired_failures wState 9 "x" 0 5 []).2.1 (by decide)
  · exact (c4_nonpaired_failures leftState 4 "x" 2 5 []).2.2 ⟨3, none, 2⟩
      ⟨4, ⟨1, none, 0⟩, ⟨3, none, 2⟩, false⟩ (by decide) (by decide) rfl
      (by decide)

/-- State like `wState` in which the recipient's channel is full: user
3's registration for room 4 already holds 100 undelivered messages. -/
def fullState : ServerState :=
  ⟨10, [(0, ⟨1, none, 0⟩), (2, ⟨3, none, 2⟩)], [],
   [(4, ⟨4, ⟨1, none, 0⟩, ⟨3, none, 2⟩, true⟩)], [(4, 4)], [(1, 4), (3, 4)],
   [(4, [(3, List.replicate 100 ⟨"x", "A", some 1, 9, false, false⟩)])]⟩

/-- C6 counterexample: exactly one waiter is registered for the
recipient's key `(4, 3)`, the send succeeds, yet the message is not
delivered into that waiter's channel — the channel already holds 100
messages and the bounded `put_nowait` drops the new one. -/
theorem c6_counterexample :
    mqGet 4 3 fullState =
      some (List.replicate 100 ⟨"x", "A", some 1, 9, false, false⟩) ∧
    (send_message 4 "hello" 0 fullState).1 = .ok 10 ∧
    mqGet 4 3 (send_message 4 "hello" 0 fullState).2 =
      some (List.replicate 100 ⟨"x", "A", some 1, 9, false, false⟩) ∧
    ("x" : String) ≠ "hello" := by decide

/-- C6 (amended): a message sent while exactly one waiter is registered
for the recipient's key is appended to that waiter's channel provided
the channel is below its 100-message capacity (a full channel drops the
message), and no other registration receives it; a message sent while
no waiter is registered for the recipient is retained nowhere — the
registration map is unchanged — and any later `wait_for_message`
registration starts from a fresh empty channel, so the message is never
delivered afterwards. -/
theorem c6_mailbox_delivery (s : ServerState) (rid : Nat) (text : String)
    (client : Nat) (u p : User) (r : ChatRoom)
    (hc : alookup client s.connections = some u)
    (hg : getRoom rid s = some r) (ha : r.active = true)
    (hm : r.has_user u.user_id = true)
    (hpartner : r.get_partner u.user_id = some p)
    (hne : p.user_id ≠ u.user_id) :
    (∀ chans ch, alookup rid s.mq = some chans →
      (∀ q ∈ chans, q.1 = p.user_id ∨ q.1 = u.user_id) →
      alookup p.user_id chans = some ch → ch.length < 100 →
      ∃ chans', alookup rid (send_message rid text client s).2.mq =
          some chans' ∧
        alookup p.user_id chans' =
          some (ch ++ [⟨text, u.name, some u.user_id, s.fresh, false, false⟩]) ∧
        (∀ k, k ≠ p.user_id → alookup k chans' = alookup k chans) ∧
        ∀ rid2, rid2 ≠ rid →
          alookup rid2 (send_message rid text client s).2.mq =
            alookup rid2 s.mq) ∧
    ((alookup rid s.mq = none ∨
      ∃ chans, alookup rid s.mq = some chans ∧
        alookup p.user_id chans = none ∧ ∀ q ∈ chans, q.1 = u.user_id) →
      (send_message rid text client s).2.mq = s.mq) ∧
    (∀ t2 : ServerState, ∀ rid3 client3 uid3,
      (wait_register rid3 client3 t2).1 = .rok uid3 →
      mqGet rid3 uid3 (wait_register rid3 client3 t2).2 = some []) := by
  refine ⟨?_, ?_, ?_⟩
  · intro chans ch hrm hkeys hpc hlen
    refine ⟨chans.map fun q =>
        if q.1 = u.user_id then q
        else (q.1, qput q.2 ⟨text, u.name, some u.user_id, s.fresh, false, false⟩),
      ?_, ?_, ?_, ?_⟩
    · simp only [send_message, hc, hg, ha, hm, Bool.true_eq_false, if_false,
        hpartner, hrm]
      exact alookup_aupd_self _ _ _
    · rw [alookup_send_map, hpc]
      simp [hne, qput, hlen]
    · intro k hk
      rw [alookup_send_map]
      rcases hak : alookup k chans with _ | ch2
      · rfl
      · have hq' : k = u.user_id := by
          rcases hkeys _ (alookup_mem hak) with hq | hq
          · exact absurd hq hk
          · exact hq
        subst hq'
        simp
    · intro rid2 h2
      simp only [send_message, hc, hg, ha, hm, Bool.true_eq_false, if_false,
        hpartner, hrm]
      exact alookup_aupd_ne _ _ h2
  · intro hcase
    rcases hcase with hrm | ⟨chans, hrm, hpc, hkeys⟩
    · simp [send_message, hc, hg, ha, hm, Bool.true_eq_false, hpartner, hrm]
    · simp only [send_message, hc, hg, ha, hm, Bool.true_eq_false, if_false,
        hpartner, hrm]
      have hid : (chans.map fun q =>
          if q.1 = u.user_id then q
          else (q.1, qput q.2
            ⟨text, u.name, some u.user_id, s.fresh, false, false⟩)) = chans :=
        map_id_of_fix fun q hq => by simp [hkeys q hq]
      rw [hid, aupd_self_eq hrm]
  · intro t2 rid3 client3 uid3 hreg
    rcases hc3 : alookup client3 t2.connections with _ | u3
    · simp [wait_register, hc3] at hreg
    rcases hg3 : getRoom rid3 t2 with _ | r3
    · simp [wait_register, hc3, hg3] at hreg
    rcases ha3 : r3.active with _ | _
    · simp [wait_register, hc3, hg3, ha3] at hreg
    rcases hm3 : r3.has_user u3.user_id with _ | _
    · simp [wait_register, hc3, hg3, ha3, hm3, Bool.true_eq_false] at hreg
    · simp only [wait_register, hc3, hg3, ha3, hm3, Bool.true_eq_false,
        if_false, RegResult.rok.injEq] at hreg
      subst hreg
      simp [wait_register, hc3, hg3, ha3, hm3, Bool.true_eq_false, mqGet,
        alookup_aupd_self]

/-- Witness for C6: with recipient 1 registered and below capacity the
message lands in their channel; with no registration for the recipient
the registry is unchanged; a fresh registration starts empty. -/
theorem c6_mailbox_delivery_witness :
    mqGet 4 1 (send_message 4 "hey" 2 wState).2 =
      some [⟨"hey", "Anonymous-3", some 3, 6, false, false⟩] ∧
    (send_message 4 "hey" 2
      (⟨6, [(0, ⟨1, none, 0⟩), (2, ⟨3, none, 2⟩)], [],
        [(4, ⟨4, ⟨1, none, 0⟩, ⟨3, none, 2⟩, true⟩)], [(4, 4)],
        [(1, 4), (3, 4)], [(4, [(3, [])])]⟩ : ServerState)).2.mq =
      [(4, [(3, [])])] ∧
    mqGet 4 1 (wait_register 4 0 wState).2 = some [] := by
  have hmain := c6_mailbox_delivery wState 4 "hey" 2 ⟨3, none, 2⟩ ⟨1, none, 0⟩
    ⟨4, ⟨1, none, 0⟩, ⟨3, none, 2⟩, true⟩ (by decide) (by decide) rfl
    (by decide) (by decide) (by decide)
  refine ⟨?_, ?_, ?_⟩
  · obtain ⟨chans', h1, h2, -, -⟩ :=
      hmain.1 [(1, [])] [] (by decide) (by decide) (by decide) (by decide)
    rw [mqGet, h1]
    simpa using h2
  · exact (c6_mailbox_delivery
      (⟨6, [(0, ⟨1, none, 0⟩), (2, ⟨3, none, 2⟩)], [],
        [(4, ⟨4, ⟨1, none, 0⟩, ⟨3, none, 2⟩, true⟩)], [(4, 4)],
        [(1, 4), (3, 4)], [(4, [(3, [])])]⟩ : ServerState)
      4 "hey" 2 ⟨3, none, 2⟩ ⟨1, none, 0⟩
      ⟨4, ⟨1, none, 0⟩, ⟨3, none, 2⟩, true⟩ (by decide) (by decide) rfl
      (by decide) (by decide) (by decide)).2.1
      (Or.inr ⟨[(3, [])], by decide, by decide, by decide⟩)
  · exact hmain.2.2 wState 4 0 1 (by decide)

end McpChat
